import Mathlib

/-!
Verification of the SpifyRFB server core against its specification.

The development shallowly embeds the Rust sources of the repository
(`src/protocol/src/server/*.rs`, `src/protocol/src/x11/mod.rs`):
byte buffers become `List Nat` (each entry a byte value), bit vectors
become `List Bool`, and the stateful zlib deflate stream becomes explicit
state passing with the compressor abstracted as a function argument.
All definitions are executable.
-/

/-- Rust slice method chunks_exact, iterative worker with explicit fuel so the
kernel can evaluate it; the remainder chunk is dropped. -/
def chunksExactGo {α : Type} (k : Nat) : Nat → List α → List (List α)
  | 0, _ => []
  | fuel + 1, l => if k ≤ l.length ∧ 0 < k then l.take k :: chunksExactGo k fuel (l.drop k) else []

/-- Rust slice method chunks_exact: splits a buffer into chunks of k bytes,
dropping a final short remainder. -/
def chunksExact {α : Type} (k : Nat) (l : List α) : List (List α) :=
  chunksExactGo k l.length l

/-- Rust slice method chunks, fuel worker; the final chunk may be shorter. -/
def chunksOfGo {α : Type} (k : Nat) : Nat → List α → List (List α)
  | 0, _ => []
  | fuel + 1, l => if l.length = 0 ∨ k = 0 then [] else l.take k :: chunksOfGo k fuel (l.drop k)

/-- Rust slice method chunks: splits a buffer into chunks of k bytes, keeping
a final short remainder chunk. -/
def chunksOf {α : Type} (k : Nat) (l : List α) : List (List α) :=
  chunksOfGo k l.length l

theorem chunksExactGo_join_uniform {α : Type} (k : Nat) (hk : 0 < k) :
    ∀ (ls : List (List α)) (fuel : Nat), (∀ x ∈ ls, x.length = k) →
      ls.flatten.length ≤ fuel → chunksExactGo k fuel ls.flatten = ls := by
  intro ls
  induction ls with
  | nil =>
      intro fuel _ _
      cases fuel with
      | zero => rfl
      | succ f =>
          simp only [List.flatten_nil, chunksExactGo]
          rw [if_neg]
          simp only [List.length_nil]
          omega
  | cons x t ih =>
      intro fuel hlen hfuel
      have hx : x.length = k := hlen x (by simp)
      have ht : ∀ y ∈ t, y.length = k := fun y hy => hlen y (by simp [hy])
      have hjoin : (x :: t).flatten = x ++ t.flatten := by simp
      rw [hjoin] at hfuel ⊢
      have hlen2 : (x ++ t.flatten).length = k + t.flatten.length := by
        simp [hx]
      cases fuel with
      | zero => omega
      | succ f =>
          simp only [chunksExactGo]
          rw [if_pos (by omega)]
          have htake : (x ++ t.flatten).take k = x := by
            rw [← hx]; exact List.take_left x t.flatten
          have hdrop : (x ++ t.flatten).drop k = t.flatten := by
            rw [← hx]; exact List.drop_left x t.flatten
          rw [htake, hdrop, ih f ht (by omega)]

theorem chunksExact_join_uniform {α : Type} (k : Nat) (hk : 0 < k) (ls : List (List α))
    (hlen : ∀ x ∈ ls, x.length = k) : chunksExact k ls.flatten = ls :=
  chunksExactGo_join_uniform k hk ls ls.flatten.length hlen (Nat.le_refl _)

theorem chunksOfGo_join_uniform {α : Type} (k : Nat) (hk : 0 < k) :
    ∀ (ls : List (List α)) (fuel : Nat), (∀ x ∈ ls, x.length = k) →
      ls.flatten.length ≤ fuel → chunksOfGo k fuel ls.flatten = ls := by
  intro ls
  induction ls with
  | nil =>
      intro fuel _ _
      cases fuel with
      | zero => rfl
      | succ f =>
          simp only [List.flatten_nil, chunksOfGo]
          rw [if_pos]
          simp
  | cons x t ih =>
      intro fuel hlen hfuel
      have hx : x.length = k := hlen x (by simp)
      have ht : ∀ y ∈ t, y.length = k := fun y hy => hlen y (by simp [hy])
      have hjoin : (x :: t).flatten = x ++ t.flatten := by simp
      rw [hjoin] at hfuel ⊢
      have hlen2 : (x ++ t.flatten).length = k + t.flatten.length := by
        simp [hx]
      cases fuel with
      | zero => omega
      | succ f =>
          simp only [chunksOfGo]
          rw [if_neg (by omega)]
          have htake : (x ++ t.flatten).take k = x := by
            rw [← hx]; exact List.take_left x t.flatten
          have hdrop : (x ++ t.flatten).drop k = t.flatten := by
            rw [← hx]; exact List.drop_left x t.flatten
          rw [htake, hdrop, ih f ht (by omega)]

theorem chunksOf_join_uniform {α : Type} (k : Nat) (hk : 0 < k) (ls : List (List α))
    (hlen : ∀ x ∈ ls, x.length = k) : chunksOf k ls.flatten = ls :=
  chunksOfGo_join_uniform k hk ls ls.flatten.length hlen (Nat.le_refl _)

/-!
Bit codec, from src/protocol/src/server/parser.rs, trait GetBits.
The Rust code has one identical implementation per width (u8, u16, u64);
the embedding is parameterised by the bit width w.
-/

/-- get_bits_be of parser.rs: pushes bit (x >> index & 1) for index in 0..w,
so the list is in fact least-significant-bit first. -/
def getBitsBe (w x : Nat) : List Bool :=
  (List.range w).map (fun i => (x >>> i) &&& 1 == 1)

/-- get_bits_le of parser.rs (trait default method): the reverse of
get_bits_be. -/
def getBitsLe (w x : Nat) : List Bool :=
  (getBitsBe w x).reverse

/-- Accumulation loop of from_bits: integer := integer | (1 << index) for every
set index of the bit list. -/
def orAccum (bits : List Bool) : Nat :=
  (List.range bits.length).foldl
    (fun acc i => if bits.getD i false then acc ||| (1 <<< i) else acc) 0

/-- from_bits of parser.rs: left-pad with false up to width w, reverse when
little-endian, then OR together 1 << index for each set index. -/
def fromBits (w : Nat) (bits : List Bool) (isLe : Bool) : Nat :=
  let bitsAdded := (if bits.length < w then List.replicate (w - bits.length) false else []) ++ bits
  let bitsFinal := if isLe then bitsAdded.reverse else bitsAdded
  orAccum bitsFinal

theorem getBitsBe_length (w x : Nat) : (getBitsBe w x).length = w := by
  simp [getBitsBe]

theorem getBitsLe_length (w x : Nat) : (getBitsLe w x).length = w := by
  simp [getBitsLe, getBitsBe]

theorem getBitsBe_entry (x i : Nat) : ((x >>> i) &&& 1 == 1) = x.testBit i := by
  have h : (x >>> i) &&& 1 = x >>> i % 2 := Nat.and_one_is_mod _
  rw [Nat.testBit, Nat.one_and_eq_mod_two]
  rcases Nat.mod_two_eq_zero_or_one (x >>> i) with h2 | h2 <;> simp [h, h2]

theorem foldl_congr_mem {α β : Type} (l : List α) (f g : β → α → β) (a : β)
    (h : ∀ acc x, x ∈ l → f acc x = g acc x) : l.foldl f a = l.foldl g a := by
  induction l generalizing a with
  | nil => rfl
  | cons y t ih =>
      simp only [List.foldl_cons]
      rw [h a y (by simp)]
      exact ih _ (fun acc x hx => h acc x (by simp [hx]))

theorem orAccum_append_singleton (l : List Bool) (b : Bool) :
    orAccum (l ++ [b]) = orAccum l ||| (if b then 1 <<< l.length else 0) := by
  unfold orAccum
  have hlen : (l ++ [b]).length = l.length + 1 := by simp
  rw [hlen, List.range_succ, List.foldl_append]
  have hcongr : (List.range l.length).foldl
      (fun acc i => if (l ++ [b]).getD i false then acc ||| (1 <<< i) else acc) 0 =
      (List.range l.length).foldl
      (fun acc i => if l.getD i false then acc ||| (1 <<< i) else acc) 0 := by
    apply foldl_congr_mem
    intro acc i hi
    have hilt : i < l.length := List.mem_range.mp hi
    rw [List.getD_append _ _ _ _ hilt]
  rw [hcongr]
  have hget : (l ++ [b]).getD l.length false = b := by
    simp [List.getD, List.getElem?_append_right (Nat.le_refl l.length)]
  simp only [List.foldl_cons, List.foldl_nil, hget]
  cases b with
  | true => simp
  | false => simp

theorem orAccum_getBitsBe (w x : Nat) : orAccum (getBitsBe w x) = x % 2 ^ w := by
  induction w with
  | zero => simp [getBitsBe, orAccum, Nat.mod_one]
  | succ n ih =>
      have hsplit : getBitsBe (n + 1) x = getBitsBe n x ++ [(x >>> n) &&& 1 == 1] := by
        unfold getBitsBe
        rw [List.range_succ, List.map_append]
        rfl
      rw [hsplit, orAccum_append_singleton, ih, getBitsBe_length, getBitsBe_entry]
      have hshift : (1 : Nat) <<< n = 2 ^ n := by
        rw [Nat.shiftLeft_eq, Nat.one_mul]
      by_cases hb : x.testBit n = true
      · rw [if_pos hb, hshift]
        apply Nat.eq_of_testBit_eq
        intro i
        rw [Nat.testBit_lor]
        rcases Nat.lt_trichotomy i n with hlt | heq | hgt
        · rw [Nat.testBit_mod_two_pow, Nat.testBit_mod_two_pow,
            Nat.testBit_two_pow_of_ne (by omega)]
          have h1 : decide (i < n) = true := decide_eq_true hlt
          have h2 : decide (i < n + 1) = true := decide_eq_true (by omega)
          rw [h1, h2, Bool.or_false]
        · subst heq
          rw [Nat.testBit_mod_two_pow, Nat.testBit_mod_two_pow, Nat.testBit_two_pow_self]
          have h1 : decide (i < i) = false := decide_eq_false (by omega)
          have h2 : decide (i < i + 1) = true := decide_eq_true (by omega)
          rw [h1, h2, Bool.false_and, Bool.false_or, Bool.true_and, hb]
        · rw [Nat.testBit_mod_two_pow, Nat.testBit_mod_two_pow,
            Nat.testBit_two_pow_of_ne (by omega)]
          have h1 : decide (i < n) = false := decide_eq_false (by omega)
          have h2 : decide (i < n + 1) = false := decide_eq_false (by omega)
          rw [h1, h2]
          simp
      · have hbf : x.testBit n = false := by
          revert hb; cases x.testBit n <;> simp
        rw [if_neg hb, Nat.or_zero]
        apply Nat.eq_of_testBit_eq
        intro i
        rw [Nat.testBit_mod_two_pow, Nat.testBit_mod_two_pow]
        rcases Nat.lt_trichotomy i n with hlt | heq | hgt
        · have h1 : decide (i < n) = true := decide_eq_true hlt
          have h2 : decide (i < n + 1) = true := decide_eq_true (by omega)
          rw [h1, h2]
        · subst heq
          have h1 : decide (i < i) = false := decide_eq_false (by omega)
          have h2 : decide (i < i + 1) = true := decide_eq_true (by omega)
          rw [h1, h2, Bool.false_and, Bool.true_and, hbf]
        · have h1 : decide (i < n) = false := decide_eq_false (by omega)
          have h2 : decide (i < n + 1) = false := decide_eq_false (by omega)
          rw [h1, h2]

theorem fromBits_getBitsLe (w x : Nat) (hx : x < 2 ^ w) :
    fromBits w (getBitsLe w x) true = x := by
  unfold fromBits
  rw [getBitsLe_length]
  simp only [Nat.lt_irrefl, if_false, List.nil_append, if_pos]
  unfold getBitsLe
  rw [List.reverse_reverse, orAccum_getBitsBe]
  exact Nat.mod_eq_of_lt hx

theorem fromBits_getBitsBe (w x : Nat) (hx : x < 2 ^ w) :
    fromBits w (getBitsBe w x) false = x := by
  unfold fromBits
  rw [getBitsBe_length]
  simp only [Nat.lt_irrefl, if_false, List.nil_append, Bool.false_eq_true]
  rw [orAccum_getBitsBe]
  exact Nat.mod_eq_of_lt hx

/-- C8: for widths 8, 16 and 64 (the three Rust impls of GetBits) and any x
of that width, from_bits(to_bits_le(x), true) = x and
from_bits(to_bits_be(x), false) = x. -/
theorem claim_C8 (w : Nat) (hw : w = 8 ∨ w = 16 ∨ w = 64) (x : Nat) (hx : x < 2 ^ w) :
    fromBits w (getBitsLe w x) true = x ∧ fromBits w (getBitsBe w x) false = x :=
  ⟨fromBits_getBitsLe w x hx, fromBits_getBitsBe w x hx⟩

/-- Witness for C8 at width 8 and x = 255. -/
theorem claim_C8_witness :
    ((8 : Nat) = 8 ∨ (8 : Nat) = 16 ∨ (8 : Nat) = 64) ∧ (255 : Nat) < 2 ^ 8 ∧
      (fromBits 8 (getBitsLe 8 255) true = 255 ∧ fromBits 8 (getBitsBe 8 255) false = 255) :=
  ⟨Or.inl rfl, by decide, claim_C8 8 (Or.inl rfl) 255 (by decide)⟩

/-!
Data model, from src/protocol/src/server/mod.rs.
Byte fields are Nat values below 256; i32 encoding ids used by this server
(0 RAW, 5 HEXTILE, 6 ZLIB, 16 ZRLE) are nonnegative, so Nat suffices.
-/

structure PixelFormat where
  bits_per_pixel : Nat
  depth : Nat
  big_endian_flag : Nat
  true_color_flag : Nat
  red_max : Nat
  green_max : Nat
  blue_max : Nat
  red_shift : Nat
  green_shift : Nat
  blue_shift : Nat
deriving Repr, DecidableEq

structure FrameBuffer where
  x_position : Nat
  y_position : Nat
  width : Nat
  height : Nat
  bits_per_pixel : Nat
  encoding : Nat
  raw_pixels : List Nat
  encoded_pixels : List Nat
deriving Repr, DecidableEq

structure FrameBufferRectangle where
  x_position : Nat
  y_position : Nat
  width : Nat
  height : Nat
  encoding_type : Nat
  encoded_pixels : List Nat
  encoded_pixels_length : Nat
deriving Repr, DecidableEq

structure FrameBufferUpdate where
  message_type : Nat
  padding : Nat
  number_of_rectangles : Nat
  frame_buffer : List FrameBufferRectangle
deriving Repr, DecidableEq

/-- RAW encoder, src/protocol/src/server/encoding_raw.rs get_pixel_data.
The y_position field is copied from framebuffer.x_position, exactly as in
the source (line 24). -/
def encodingRawGetPixelData (fb : FrameBuffer) : FrameBufferRectangle :=
  { x_position := fb.x_position
    y_position := fb.x_position
    width := fb.width
    height := fb.height
    encoding_type := 0
    encoded_pixels := fb.raw_pixels
    encoded_pixels_length := 0 }

/-- Abstract compressor standing for one successful Z_SYNC_FLUSH call of the
external libz deflate: given the bytes already fed to the stream and the new
input, it yields the emitted compressed bytes. -/
def Compress : Type := List Nat → List Nat → List Nat

/-- deflate of src/protocol/src/server/encoding_zlib.rs. The libz context is
external code; it is modelled by the abstract compressor c together with the
stream history st (the concatenation of all inputs fed so far), and only the
success path of deflateInit2_/deflate is modelled — on the success path the
rectangle takes the framebuffer's encoding id and the compressed bytes, and
the stream history grows by exactly the input framebuffer.encoded_pixels. -/
def zlibDeflate (c : Compress) (st : List Nat) (fb : FrameBuffer) :
    FrameBufferRectangle × List Nat :=
  let input := fb.encoded_pixels
  let output := c st input
  ({ x_position := fb.x_position
     y_position := fb.y_position
     width := fb.width
     height := fb.height
     encoding_type := fb.encoding
     encoded_pixels := output
     encoded_pixels_length := output.length }, st ++ input)

/-- get_pixel_data of encoding_zlib.rs: a direct call to deflate. -/
def encodingZlibGetPixelData (c : Compress) (st : List Nat) (fb : FrameBuffer) :
    FrameBufferRectangle × List Nat :=
  zlibDeflate c st fb

/-- CPIXEL extraction of encoding_zrle.rs get_pixel_data: three bytes out of
every 4-byte chunk of raw_pixels. -/
def zrleCPixels (raw : List Nat) : List Nat :=
  ((chunksOf 4 raw).map (fun p => [p.getD 0 0, p.getD 1 0, p.getD 2 0])).flatten

/-- solid_zrletile_color of encoding_zrle.rs: the tile is solid iff every
bytes_per_pixel chunk equals the first chunk. -/
def solidZrletileColor (tile : List Nat) (bytesPerPixel : Nat) : Bool × List Nat :=
  let tileChunks := chunksOf bytesPerPixel tile
  let initialColor := tileChunks.getD 0 []
  if tileChunks.all (fun ch => ch == initialColor) then (true, initialColor) else (false, [])

/-- encode of encoding_zrle.rs: 64-wide tiling over the CPIXEL scan lines held
in encoded_pixels. The source computes the tile counts and tile coordinates
through f32 ceil/floor; for u16 widths and heights those f32 operations are
exact, so they are rendered as Nat ceiling division and Nat division here. -/
def zrleEncode (fb : FrameBuffer) : List Nat :=
  let bytesPerCPixel := if 24 ≤ fb.bits_per_pixel then 3 else fb.bits_per_pixel / 8
  let hTiles := (fb.width + 63) / 64
  let vTiles := (fb.height + 63) / 64
  let hscanLines := chunksExact (fb.width * bytesPerCPixel) fb.encoded_pixels
  ((List.range (vTiles * hTiles)).map (fun ctr =>
    let vp := ctr / hTiles
    let hp := ctr % hTiles
    let start := vp * 64
    let stop := min (start + 64) hscanLines.length
    let tilePixels := ((List.range' start (stop - start)).map (fun r =>
      let line := hscanLines.getD r []
      let hs := hp * bytesPerCPixel * 64
      let he := min (hs + 64 * bytesPerCPixel) line.length
      (line.take he).drop hs)).flatten
    let solid := solidZrletileColor tilePixels bytesPerCPixel
    if solid.1 then 1 :: solid.2 else 0 :: tilePixels)).flatten

/-- get_pixel_data of encoding_zrle.rs: builds the CPIXEL stream, tiles it
when the area is positive (otherwise passes raw_pixels through untiled), and
always hands the result to the shared zlib deflate. -/
def encodingZrleGetPixelData (c : Compress) (st : List Nat) (fb : FrameBuffer) :
    FrameBufferRectangle × List Nat :=
  let cPixels := zrleCPixels fb.raw_pixels
  let encodedTiles :=
    if 0 < fb.width ∧ 0 < fb.height then zrleEncode { fb with encoded_pixels := cPixels }
    else fb.raw_pixels
  zlibDeflate c st { fb with encoded_pixels := encodedTiles }

/-!
HEXTILE encoder, src/protocol/src/server/encoding_hextile.rs.
The per-tile state of encode (solid_previous_tile, previous_scan_line,
solid_tile) is declared once before the tile loop and never reset, which the
embedding reproduces faithfully.
-/

structure HexState where
  solid_previous_tile : List Nat
  previous_scan_line : List Nat
  solid_tile : Bool
deriving Repr, DecidableEq

/-- Scan-line slices that encode reads for tile ctr: rows
[16 vp, min (16 vp + 16) lines) restricted to the 16-pixel column band of the
tile. The f32 ceil/floor tile arithmetic of the source is exact in range and
is rendered as Nat arithmetic. -/
def hextileSegs (fb : FrameBuffer) (ctr : Nat) : List (List Nat) :=
  let bytesPerPixel := fb.bits_per_pixel / 8
  let hTiles := (fb.width + 15) / 16
  let hscanLines := chunksExact (fb.width * bytesPerPixel) fb.raw_pixels
  let vp := ctr / hTiles
  let hp := ctr % hTiles
  let start := vp * 16
  let stop := min (start + 16) hscanLines.length
  (List.range' start (stop - start)).map (fun r =>
    let line := hscanLines.getD r []
    let hs := hp * bytesPerPixel * 16
    let he := min (hs + 16 * bytesPerPixel) line.length
    (line.take he).drop hs)

/-- Per-scan-line state update inside a tile: the first line ever seen becomes
previous_scan_line; afterwards any differing line clears solid_tile. -/
def hexStepLine (st : HexState) (seg : List Nat) : HexState :=
  if st.previous_scan_line.length = 0 then { st with previous_scan_line := seg }
  else if seg ≠ st.previous_scan_line then { st with solid_tile := false } else st

/-- One tile of encode: fold the scan lines, then emit subencoding 0 / 2+color
for a (still) solid run or 1 plus the raw tile bytes. -/
def hexProcessTile (bytesPerPixel : Nat) (st : HexState) (segs : List (List Nat)) :
    HexState × List Nat :=
  let st1 := segs.foldl hexStepLine st
  let tilePixels := segs.flatten
  if st1.solid_tile then
    let solidColor := (List.range bytesPerPixel).map (fun i => tilePixels.getD i 0)
    if solidColor = st1.solid_previous_tile then (st1, [0])
    else ({ st1 with solid_previous_tile := solidColor }, 2 :: solidColor)
  else (st1, 1 :: tilePixels)

/-- The tile loop of encode, collecting the per-tile output chunks. -/
def hexFold (fb : FrameBuffer) : List Nat → HexState → HexState × List (List Nat)
  | [], st => (st, [])
  | ctr :: rest, st =>
      let step := hexProcessTile (fb.bits_per_pixel / 8) st (hextileSegs fb ctr)
      let next := hexFold fb rest step.1
      (next.1, step.2 :: next.2)

/-- Output chunks of encode for tiles 0 .. v_tiles*h_tiles - 1, starting from
the initial state (empty previous color, empty previous scan line, solid). -/
def hextileTileOutputs (fb : FrameBuffer) : List (List Nat) :=
  (hexFold fb (List.range (((fb.height + 15) / 16) * ((fb.width + 15) / 16)))
    ⟨[], [], true⟩).2

/-- encode of encoding_hextile.rs: the concatenated tile outputs. -/
def hextileEncodeBytes (fb : FrameBuffer) : List Nat :=
  (hextileTileOutputs fb).flatten

/-- get_pixel_data of encoding_hextile.rs: hextile for a positive area,
otherwise the RAW fallback rectangle. -/
def encodingHextileGetPixelData (fb : FrameBuffer) : FrameBufferRectangle :=
  let base : FrameBufferRectangle :=
    { x_position := fb.x_position
      y_position := fb.y_position
      width := fb.width
      height := fb.height
      encoding_type := 0
      encoded_pixels := fb.raw_pixels
      encoded_pixels_length := 0 }
  if 0 < fb.width ∧ 0 < fb.height then
    { base with encoding_type := 5, encoded_pixels := hextileEncodeBytes fb }
  else base

/-!
Pixel transcoder and rectangle_framebuffer_update, from
src/protocol/src/x11/mod.rs (lines 173-266). The screen is the depth-24
true-color X11 screen, for which the source fixes bits_per_pixel = 32.
The XGetImage capture result is passed in as the captured byte list; the
screen and connection handles are external and carry no further data flow.
-/

/-- Body of the transcode loop for one pixel chunk: reads come from
pixel_copy (the unmodified chunk), writes go to indices red, green, blue and
then 3 (set to 255), in source order. -/
def transcodeChunk (red green blue : Nat) (chunk : List Nat) : List Nat :=
  (((chunk.set red (chunk.getD 2 0)).set green (chunk.getD 1 0)).set blue
    (chunk.getD 0 0)).set 3 255

/-- The in-place transcode of the captured buffer: chunks_mut of
bits_per_pixel/8 bytes, each rewritten by the loop body. -/
def transcodePixels (red green blue bitsPerPixel : Nat) (pixels : List Nat) : List Nat :=
  ((chunksOf (bitsPerPixel / 8) pixels).map (transcodeChunk red green blue)).flatten

/-- pixformat_data accumulated when the encoding is ZRLE: the first three
bytes of every transcoded chunk. -/
def zrlePixformatData (red green blue bitsPerPixel : Nat) (pixels : List Nat) : List Nat :=
  ((chunksOf (bitsPerPixel / 8) pixels).map (fun ch =>
    [(transcodeChunk red green blue ch).getD 0 0,
     (transcodeChunk red green blue ch).getD 1 0,
     (transcodeChunk red green blue ch).getD 2 0])).flatten

/-- rectangle_framebuffer_update of x11/mod.rs: transcode the captured pixels
in place, then dispatch on the encoding id (0 RAW, 16 ZRLE, 6 ZLIB,
5 HEXTILE, anything else produces no rectangle). The FrameBuffer handed to
the encoders carries the transcoded bytes as raw_pixels and an encoded_pixels
field that is empty unless the ZRLE branch assigned pixformat_data. -/
def rectangleFramebufferUpdate (c : Compress) (st : List Nat) (encodingType x y w h : Nat)
    (pf : PixelFormat) (captured : List Nat) : FrameBufferUpdate × List Nat :=
  let bitsPerPixel := 32
  let red := pf.red_shift / 8
  let green := pf.green_shift / 8
  let blue := pf.blue_shift / 8
  let pixelData := transcodePixels red green blue bitsPerPixel captured
  let pixformatData :=
    if encodingType = 16 then zrlePixformatData red green blue bitsPerPixel captured else []
  let fb0 : FrameBuffer :=
    { x_position := x, y_position := y, width := w, height := h
      bits_per_pixel := bitsPerPixel, encoding := 0
      raw_pixels := pixelData, encoded_pixels := [] }
  let rectsSt : List FrameBufferRectangle × List Nat :=
    if encodingType = 0 then ([encodingRawGetPixelData fb0], st)
    else if encodingType = 16 then
      let rs := encodingZrleGetPixelData c st
        { fb0 with encoding := 16, encoded_pixels := pixformatData }
      ([rs.1], rs.2)
    else if encodingType = 6 then
      let rs := encodingZlibGetPixelData c st { fb0 with encoding := 6 }
      ([rs.1], rs.2)
    else if encodingType = 5 then
      ([encodingHextileGetPixelData { fb0 with encoding := 5 }], st)
    else ([], st)
  ({ message_type := 0, padding := 0, number_of_rectangles := 1
     frame_buffer := rectsSt.1 }, rectsSt.2)

/-!
Serving-state message framing, from init_clientserver_handshake of
src/protocol/src/server/mod.rs (lines 469-571): one opcode byte is read,
then a fixed-size payload buffer per opcode, and the loop repeats.
-/

/-- Payload bytes read after each opcode byte: 19 for SetPixelFormat(0),
3 for SetEncodings(2), 9 for FramebufferUpdateRequest(3), 5 for
PointerEvent(5), 7 for KeyEvent(4), and nothing for any other opcode. -/
def msgPayloadLen (opcode : Nat) : Nat :=
  if opcode = 0 then 19
  else if opcode = 2 then 3
  else if opcode = 3 then 9
  else if opcode = 5 then 5
  else if opcode = 4 then 7
  else 0

/-- One iteration of the read loop: take the opcode byte, then drop exactly
the fixed payload length for that opcode; the next list head is what the
following iteration will treat as an opcode. None models read_exact failing
for lack of bytes. -/
def readClientMessage (stream : List Nat) : Option (Nat × List Nat) :=
  match stream with
  | [] => none
  | op :: rest =>
      if rest.length < msgPayloadLen op then none
      else some (op, rest.drop (msgPayloadLen op))

/-!
WebSocket frame builder, from the websocket module of
src/protocol/src/server/parser.rs (lines 267-345).
-/

/-- u16::to_be_bytes. -/
def be16 (n : Nat) : List Nat :=
  [n / 256 % 256, n % 256]

/-- u64::to_be_bytes. -/
def be64 (n : Nat) : List Nat :=
  [n / 256 ^ 7 % 256, n / 256 ^ 6 % 256, n / 256 ^ 5 % 256, n / 256 ^ 4 % 256,
   n / 256 ^ 3 % 256, n / 256 ^ 2 % 256, n / 256 % 256, n % 256]

/-- The 7-bit payload hint of create_frame: the length itself below 126, else
the escape values 126 (u16 extension) or 127 (u64 extension). -/
def wsPayloadHint (len : Nat) : Nat :=
  if len < 126 then len else if len ≤ 65535 then 126 else 127

/-- The extended-length bytes of create_frame matching the hint. -/
def wsExtendedPayload (len : Nat) : List Nat :=
  if len < 126 then [] else if len ≤ 65535 then be16 len else be64 len

/-- mask_payload of parser.rs: the body is a TODO stub that returns an empty
vector regardless of the payload. -/
def maskPayload (_payload : List Nat) : List Nat :=
  []

/-- unmask_payload of parser.rs: XOR each payload byte with the masking key
byte at index mod 4. -/
def unmaskPayload (maskKey : List Nat) (payload : List Nat) : List Nat :=
  (List.range payload.length).map (fun i => Nat.xor (payload.getD i 0) (maskKey.getD (i % 4) 0))

/-- create_frame of parser.rs. The random masking key of the source
(generate_masking_key) is passed in as maskingKey; it is appended only when
secure is set, and in that case the payload section is mask_payload(payload),
the stub above. -/
def createFrame (payload : List Nat) (opcode : Nat) (secure : Bool) (maskingKey : List Nat) :
    List Nat :=
  let finByte := true :: (List.replicate 3 false ++ (getBitsLe 8 opcode).drop 4)
  let maskByte := secure :: (getBitsLe 8 (wsPayloadHint payload.length)).drop 1
  let extendedPayload := wsExtendedPayload payload.length
  [fromBits 8 finByte true, fromBits 8 maskByte true] ++ extendedPayload
    ++ (if secure then maskingKey else [])
    ++ (if secure then maskPayload payload else payload)

/-- C9: the RAW encoder copies x_position into the rectangle's y_position
field, so rectangles with distinct input coordinates carry a wrong
y coordinate. -/
theorem claim_C9 (fb : FrameBuffer) :
    (encodingRawGetPixelData fb).x_position = fb.x_position ∧
    (encodingRawGetPixelData fb).y_position = fb.x_position ∧
    (encodingRawGetPixelData fb).width = fb.width ∧
    (encodingRawGetPixelData fb).height = fb.height ∧
    (encodingRawGetPixelData fb).encoding_type = 0 ∧
    (encodingRawGetPixelData fb).encoded_pixels = fb.raw_pixels ∧
    (fb.x_position ≠ fb.y_position →
      (encodingRawGetPixelData fb).y_position ≠ fb.y_position) := by
  refine ⟨rfl, rfl, rfl, rfl, rfl, rfl, ?_⟩
  intro hne
  simpa [encodingRawGetPixelData] using hne

/-- Witness for C9 at a framebuffer with x_position 3 and y_position 7. -/
theorem claim_C9_witness :
    ((3 : Nat) ≠ 7) ∧
      ((encodingRawGetPixelData ⟨3, 7, 1, 1, 32, 0, [9, 9, 9, 9], []⟩).x_position = 3 ∧
       (encodingRawGetPixelData ⟨3, 7, 1, 1, 32, 0, [9, 9, 9, 9], []⟩).y_position = 3 ∧
       (encodingRawGetPixelData ⟨3, 7, 1, 1, 32, 0, [9, 9, 9, 9], []⟩).width = 1 ∧
       (encodingRawGetPixelData ⟨3, 7, 1, 1, 32, 0, [9, 9, 9, 9], []⟩).height = 1 ∧
       (encodingRawGetPixelData ⟨3, 7, 1, 1, 32, 0, [9, 9, 9, 9], []⟩).encoding_type = 0 ∧
       (encodingRawGetPixelData ⟨3, 7, 1, 1, 32, 0, [9, 9, 9, 9], []⟩).encoded_pixels =
         [9, 9, 9, 9] ∧
       ((3 : Nat) ≠ 7 →
         (encodingRawGetPixelData ⟨3, 7, 1, 1, 32, 0, [9, 9, 9, 9], []⟩).y_position ≠ 7)) :=
  ⟨by decide, claim_C9 ⟨3, 7, 1, 1, 32, 0, [9, 9, 9, 9], []⟩⟩

/-- C1 (code bug): in the ZLIB branch of rectangle_framebuffer_update the
deflate stream is fed framebuffer.encoded_pixels, which is never assigned and
stays empty, instead of the transcoded pixel array. The first conjunct shows
the stream history never grows and the emitted payload is the compression of
the empty buffer for every input; the rest evaluates a concrete 1-by-1
capture whose transcoded pixels are nonempty. -/
theorem claim_C1 :
    (∀ (c : Compress) (st : List Nat) (x y w h : Nat) (pf : PixelFormat)
        (captured : List Nat),
      (rectangleFramebufferUpdate c st 6 x y w h pf captured).2 = st ∧
      (rectangleFramebufferUpdate c st 6 x y w h pf captured).1.frame_buffer.map
        (fun r => r.encoded_pixels) = [c st []]) ∧
    transcodePixels (16 / 8) (8 / 8) (0 / 8) 32 [10, 20, 30, 40] = [10, 20, 30, 255] ∧
    (rectangleFramebufferUpdate (fun _ i => i) [] 6 0 0 1 1
        ⟨32, 24, 0, 1, 255, 255, 255, 16, 8, 0⟩ [10, 20, 30, 40]).1.frame_buffer.map
      (fun r => r.encoded_pixels) = [[]] ∧
    ([10, 20, 30, 255] : List Nat) ≠ [] := by
  refine ⟨?_, by decide, by decide, by decide⟩
  intro c st x y w h pf captured
  constructor
  · simp [rectangleFramebufferUpdate, encodingZlibGetPixelData, zlibDeflate]
  · simp [rectangleFramebufferUpdate, encodingZlibGetPixelData, zlibDeflate]

/-- C6 counterexample: a zero-width framebuffer handed to the ZRLE encoder
does not degrade to a RAW rectangle — the rectangle keeps encoding id 16 and
its payload is the deflate of the raw pixel array (a nontrivial compressor
visibly transforms it), falsifying the claim that every encoder degrades to
RAW with the untransformed pixel array on zero-area input. -/
theorem claim_C6_cx :
    (encodingZrleGetPixelData (fun _ i => i) [] ⟨0, 0, 0, 1, 32, 16, [1, 2, 3, 4], []⟩).1
        = { x_position := 0, y_position := 0, width := 0, height := 1, encoding_type := 16
            encoded_pixels := [1, 2, 3, 4], encoded_pixels_length := 4 } ∧
    (encodingZrleGetPixelData (fun _ i => i) [] ⟨0, 0, 0, 1, 32, 16, [1, 2, 3, 4], []⟩).1.encoding_type = 16 ∧
    ((16 : Nat) ≠ 0) ∧
    (encodingZrleGetPixelData (fun _ i => 0 :: i) [] ⟨0, 0, 0, 1, 32, 16, [1, 2, 3, 4], []⟩).1.encoded_pixels
        = [0, 1, 2, 3, 4] ∧
    ([0, 1, 2, 3, 4] : List Nat) ≠ [1, 2, 3, 4] := by
  refine ⟨?_, by decide, by decide, by decide, by decide⟩
  decide

/-- C6 corrected: on zero-area input only RAW and HEXTILE degrade to a RAW
rectangle carrying the raw pixel array; ZLIB and ZRLE still run the session
deflate stream (ZRLE feeding the raw pixel array untiled, ZLIB its
encoded_pixels input) and keep the framebuffer's own encoding id whenever
deflate succeeds. -/
theorem claim_C6 (c : Compress) (st : List Nat) (fb : FrameBuffer)
    (hz : fb.width = 0 ∨ fb.height = 0) :
    (encodingRawGetPixelData fb).encoding_type = 0 ∧
    (encodingRawGetPixelData fb).encoded_pixels = fb.raw_pixels ∧
    (encodingHextileGetPixelData fb).encoding_type = 0 ∧
    (encodingHextileGetPixelData fb).encoded_pixels = fb.raw_pixels ∧
    (encodingZrleGetPixelData c st fb).1.encoding_type = fb.encoding ∧
    (encodingZrleGetPixelData c st fb).1.encoded_pixels = c st fb.raw_pixels ∧
    (encodingZlibGetPixelData c st fb).1.encoding_type = fb.encoding ∧
    (encodingZlibGetPixelData c st fb).1.encoded_pixels = c st fb.encoded_pixels := by
  have hcond : ¬(0 < fb.width ∧ 0 < fb.height) := by
    rcases hz with hz | hz <;> simp [hz]
  refine ⟨rfl, rfl, ?_, ?_, ?_, ?_, rfl, rfl⟩
  · simp [encodingHextileGetPixelData, hcond]
  · simp [encodingHextileGetPixelData, hcond]
  · simp [encodingZrleGetPixelData, hcond, zlibDeflate]
  · simp [encodingZrleGetPixelData, hcond, zlibDeflate]

/-- Witness for C6 on a zero-width framebuffer. -/
theorem claim_C6_witness :
    ((0 : Nat) = 0 ∨ (1 : Nat) = 0) ∧
      ((encodingRawGetPixelData ⟨5, 6, 0, 1, 32, 6, [1, 2, 3, 4], [9]⟩).encoding_type = 0 ∧
       (encodingRawGetPixelData ⟨5, 6, 0, 1, 32, 6, [1, 2, 3, 4], [9]⟩).encoded_pixels =
         [1, 2, 3, 4] ∧
       (encodingHextileGetPixelData ⟨5, 6, 0, 1, 32, 6, [1, 2, 3, 4], [9]⟩).encoding_type = 0 ∧
       (encodingHextileGetPixelData ⟨5, 6, 0, 1, 32, 6, [1, 2, 3, 4], [9]⟩).encoded_pixels =
         [1, 2, 3, 4] ∧
       (encodingZrleGetPixelData (fun _ i => i) []
           ⟨5, 6, 0, 1, 32, 6, [1, 2, 3, 4], [9]⟩).1.encoding_type = 6 ∧
       (encodingZrleGetPixelData (fun _ i => i) []
           ⟨5, 6, 0, 1, 32, 6, [1, 2, 3, 4], [9]⟩).1.encoded_pixels =
         (fun (_ i : List Nat) => i) [] [1, 2, 3, 4] ∧
       (encodingZlibGetPixelData (fun _ i => i) []
           ⟨5, 6, 0, 1, 32, 6, [1, 2, 3, 4], [9]⟩).1.encoding_type = 6 ∧
       (encodingZlibGetPixelData (fun _ i => i) []
           ⟨5, 6, 0, 1, 32, 6, [1, 2, 3, 4], [9]⟩).1.encoded_pixels =
         (fun (_ i : List Nat) => i) [] [9]) :=
  ⟨Or.inl rfl, claim_C6 (fun _ i => i) [] ⟨5, 6, 0, 1, 32, 6, [1, 2, 3, 4], [9]⟩ (Or.inl rfl)⟩

/-- C5 (code bug): the SetEncodings handler reads a fixed 3-byte payload and
never drains the 4·n encoding ids. For n = 1 with encoding id 16 (ZRLE), the
loop leaves the four id bytes in the stream and the following iteration reads
the id's first byte 0 as a message opcode, while the claim's drain of
3 + 4·1 = 7 bytes would have left the stream empty. -/
theorem claim_C5 :
    readClientMessage
        [2, 0, 0, 1, 0, 0, 0, 16, 3, 0, 0, 0, 0, 0, 0, 0, 0, 0, 4, 0, 0, 0, 0, 0, 0, 0]
      = some (2, [0, 0, 0, 16, 3, 0, 0, 0, 0, 0, 0, 0, 0, 0, 4, 0, 0, 0, 0, 0, 0, 0]) ∧
    (readClientMessage
        [0, 0, 0, 16, 3, 0, 0, 0, 0, 0, 0, 0, 0, 0, 4, 0, 0, 0, 0, 0, 0, 0]).map Prod.fst
      = some 0 ∧
    ([2, 0, 0, 1, 0, 0, 0, 16, 3, 0, 0, 0, 0, 0, 0, 0, 0, 0, 4, 0, 0, 0, 0, 0, 0, 0].drop
        (1 + (3 + 4 * 1))).headD 99 = 3 ∧
    ((0 : Nat) ≠ 3) := by
  refine ⟨by decide, by decide, by decide, by decide⟩

theorem maskByteValue (n : Nat) (hn : n < 126) :
    fromBits 8 (true :: (getBitsLe 8 n).drop 1) true = 128 + n := by
  revert hn
  revert n
  decide

/-- C10: create_frame with secure = true emits the header that declares the
payload length and the MASK bit, then the four masking-key bytes, and then
nothing — mask_payload is a stub returning the empty vector — so every
nonempty payload is silently dropped, while secure = false frames carry the
payload after the header. -/
theorem claim_C10 (p : List Nat) (o : Nat) (k : List Nat) (hk : k.length = 4) :
    (createFrame p o true k).length = 2 + (wsExtendedPayload p.length).length + 4 ∧
    (createFrame p o true k).drop (2 + (wsExtendedPayload p.length).length) = k ∧
    (p.length < 126 → (createFrame p o true k).getD 1 0 = 128 + p.length) ∧
    (createFrame p o false k).drop (2 + (wsExtendedPayload p.length).length) = p := by
  refine ⟨?_, ?_, ?_, ?_⟩
  · simp [createFrame, maskPayload, hk]
    omega
  · have hsplit : createFrame p o true k =
        ([fromBits 8 (true :: (List.replicate 3 false ++ (getBitsLe 8 o).drop 4)) true,
          fromBits 8 (true :: (getBitsLe 8 (wsPayloadHint p.length)).drop 1) true]
          ++ wsExtendedPayload p.length) ++ k := by
      simp [createFrame, maskPayload]
    rw [hsplit]
    have hlen : ([fromBits 8 (true :: (List.replicate 3 false ++ (getBitsLe 8 o).drop 4)) true,
          fromBits 8 (true :: (getBitsLe 8 (wsPayloadHint p.length)).drop 1) true]
          ++ wsExtendedPayload p.length).length
        = 2 + (wsExtendedPayload p.length).length := by
      simp
      omega
    rw [← hlen, List.drop_left]
  · intro hp
    have hhint : wsPayloadHint p.length = p.length := by
      simp [wsPayloadHint, hp]
    have hgoal : (createFrame p o true k).getD 1 0
        = fromBits 8 (true :: (getBitsLe 8 (wsPayloadHint p.length)).drop 1) true := rfl
    rw [hgoal, hhint, maskByteValue p.length hp]
  · have hsplit : createFrame p o false k =
        ([fromBits 8 (true :: (List.replicate 3 false ++ (getBitsLe 8 o).drop 4)) true,
          fromBits 8 (false :: (getBitsLe 8 (wsPayloadHint p.length)).drop 1) true]
          ++ wsExtendedPayload p.length) ++ p := by
      simp [createFrame]
    rw [hsplit]
    have hlen : ([fromBits 8 (true :: (List.replicate 3 false ++ (getBitsLe 8 o).drop 4)) true,
          fromBits 8 (false :: (getBitsLe 8 (wsPayloadHint p.length)).drop 1) true]
          ++ wsExtendedPayload p.length).length
        = 2 + (wsExtendedPayload p.length).length := by
      simp
      omega
    rw [← hlen, List.drop_left]

/-- Witness for C10 at payload [7], opcode 2 and a concrete masking key. -/
theorem claim_C10_witness :
    ([1, 2, 3, 4] : List Nat).length = 4 ∧
      ((createFrame [7] 2 true [1, 2, 3, 4]).length
          = 2 + (wsExtendedPayload [7].length).length + 4 ∧
       (createFrame [7] 2 true [1, 2, 3, 4]).drop (2 + (wsExtendedPayload [7].length).length)
          = [1, 2, 3, 4] ∧
       (([7] : List Nat).length < 126 →
         (createFrame [7] 2 true [1, 2, 3, 4]).getD 1 0 = 128 + [7].length) ∧
       (createFrame [7] 2 false [1, 2, 3, 4]).drop (2 + (wsExtendedPayload [7].length).length)
          = [7]) :=
  ⟨rfl, claim_C10 [7] 2 [1, 2, 3, 4] rfl⟩

theorem getD_set_self (l : List Nat) (i v : Nat) (h : i < l.length) :
    (l.set i v).getD i 0 = v := by
  rw [List.getD_eq_getElem _ _ (by simpa using h)]
  simp [List.getElem_set_self]

theorem getD_set_ne (l : List Nat) (i j v : Nat) (h : i ≠ j) :
    (l.set i v).getD j 0 = l.getD j 0 := by
  by_cases hj : j < l.length
  · rw [List.getD_eq_getElem _ _ (by simpa using hj), List.getD_eq_getElem _ _ hj]
    exact List.getElem_set_ne h _
  · have h1 : l.length ≤ j := Nat.le_of_not_lt hj
    rw [List.getD_eq_default _ _ (by simpa using h1), List.getD_eq_default _ _ h1]

theorem getD_map_list (f : List Nat → List Nat) (ls : List (List Nat)) (i : Nat)
    (h : i < ls.length) : (ls.map f).getD i [] = f (ls.getD i []) := by
  rw [List.getD_eq_getElem _ _ (by simpa using h), List.getD_eq_getElem _ _ h]
  simp

theorem flatten_length_uniform {α : Type} (k : Nat) :
    ∀ ls : List (List α), (∀ x ∈ ls, x.length = k) → ls.flatten.length = k * ls.length := by
  intro ls
  induction ls with
  | nil => simp
  | cons x t ih =>
      intro hu
      have hx : x.length = k := hu x (by simp)
      have ht : ∀ y ∈ t, y.length = k := fun y hy => hu y (by simp [hy])
      simp [hx, ih ht, Nat.mul_succ, Nat.add_comm]

theorem flatten_getD_uniform (k : Nat) :
    ∀ (ls : List (List Nat)) (i j : Nat), (∀ x ∈ ls, x.length = k) → i < ls.length →
      j < k → ls.flatten.getD (k * i + j) 0 = (ls.getD i []).getD j 0 := by
  intro ls
  induction ls with
  | nil => intro i j _ hi; simp at hi
  | cons x t ih =>
      intro i j hu hi hj
      have hx : x.length = k := hu x (by simp)
      have ht : ∀ y ∈ t, y.length = k := fun y hy => hu y (by simp [hy])
      cases i with
      | zero =>
          have hjx : j < x.length := by omega
          simp only [List.flatten_cons, Nat.mul_zero, Nat.zero_add]
          rw [List.getD_append _ _ _ _ hjx]
          rfl
      | succ n =>
          have hn : n < t.length := by simpa using hi
          have hidx : k * (n + 1) + j = x.length + (k * n + j) := by
            rw [hx]; ring
          simp only [List.flatten_cons]
          rw [hidx]
          have hdrop : (x ++ t.flatten).getD (x.length + (k * n + j)) 0
              = t.flatten.getD (k * n + j) 0 := by
            simp [List.getD, List.getElem?_append_right (Nat.le_add_right x.length _)]
          rw [hdrop, ih n j ht hn hj]
          rfl

theorem chunksOfGo_spec (k : Nat) (hk : 0 < k) :
    ∀ (fuel : Nat) (l : List Nat), l.length ≤ fuel → k ∣ l.length →
      (∀ ch ∈ chunksOfGo k fuel l, ch.length = k) ∧
      (chunksOfGo k fuel l).flatten = l ∧
      (chunksOfGo k fuel l).length = l.length / k := by
  intro fuel
  induction fuel with
  | zero =>
      intro l hl _
      have hnil : l = [] := List.eq_nil_of_length_eq_zero (by omega)
      subst hnil
      refine ⟨by simp [chunksOfGo], by simp [chunksOfGo], by simp [chunksOfGo]⟩
  | succ f ih =>
      intro l hl hd
      by_cases hz : l.length = 0
      · have hnil : l = [] := List.eq_nil_of_length_eq_zero hz
        subst hnil
        refine ⟨?_, ?_, ?_⟩ <;> simp [chunksOfGo]
      · have hge : k ≤ l.length := Nat.le_of_dvd (Nat.pos_of_ne_zero hz) hd
        have hcond : ¬(l.length = 0 ∨ k = 0) := by omega
        have hstep : chunksOfGo k (f + 1) l = l.take k :: chunksOfGo k f (l.drop k) := by
          simp only [chunksOfGo]
          rw [if_neg hcond]
        have hdlen : (l.drop k).length = l.length - k := by simp
        have hddvd : k ∣ (l.drop k).length := by
          rw [hdlen]
          obtain ⟨m, hm⟩ := hd
          cases m with
          | zero => omega
          | succ n =>
              refine ⟨n, ?_⟩
              rw [hm, Nat.mul_succ]
              omega
        obtain ⟨ihu, ihf, ihl⟩ := ih (l.drop k) (by omega) hddvd
        have htlen : (l.take k).length = k := by
          simp [Nat.min_eq_left hge]
        refine ⟨?_, ?_, ?_⟩
        · intro ch hch
          rw [hstep] at hch
          rcases List.mem_cons.mp hch with hch | hch
          · rw [hch]; exact htlen
          · exact ihu ch hch
        · rw [hstep]
          simp only [List.flatten_cons, ihf]
          exact List.take_append_drop k l
        · rw [hstep]
          simp only [List.length_cons, ihl, hdlen]
          obtain ⟨m, hm⟩ := hd
          cases m with
          | zero => omega
          | succ n =>
              rw [hm, Nat.mul_succ]
              have h1 : k * n + k - k = k * n := by omega
              rw [h1, Nat.mul_div_cancel_left _ hk]
              have h2 : k * n + k = k * (n + 1) := by rw [Nat.mul_succ]
              rw [h2, Nat.mul_div_cancel_left _ hk]

theorem chunksOf_spec (k : Nat) (hk : 0 < k) (l : List Nat) (hd : k ∣ l.length) :
    (∀ ch ∈ chunksOf k l, ch.length = k) ∧
    (chunksOf k l).flatten = l ∧
    (chunksOf k l).length = l.length / k :=
  chunksOfGo_spec k hk l.length l (Nat.le_refl _) hd

theorem transcodeChunk_length (red green blue : Nat) (ch : List Nat) :
    (transcodeChunk red green blue ch).length = ch.length := by
  simp [transcodeChunk]

theorem transcodeChunk_getD (red green blue : Nat) (ch : List Nat)
    (hch : ch.length = 4) (hr : red < 3) (hg : green < 3) (hb : blue < 3)
    (hrg : red ≠ green) (hrb : red ≠ blue) (hgb : green ≠ blue) :
    (transcodeChunk red green blue ch).getD red 0 = ch.getD 2 0 ∧
    (transcodeChunk red green blue ch).getD green 0 = ch.getD 1 0 ∧
    (transcodeChunk red green blue ch).getD blue 0 = ch.getD 0 0 ∧
    (transcodeChunk red green blue ch).getD 3 0 = 255 := by
  unfold transcodeChunk
  refine ⟨?_, ?_, ?_, ?_⟩
  · rw [getD_set_ne _ _ _ _ (by omega : (3 : Nat) ≠ red),
      getD_set_ne _ _ _ _ (fun hcon => hrb hcon.symm),
      getD_set_ne _ _ _ _ (fun hcon => hrg hcon.symm),
      getD_set_self _ _ _ (by omega)]
  · rw [getD_set_ne _ _ _ _ (by omega : (3 : Nat) ≠ green),
      getD_set_ne _ _ _ _ (fun hcon => hgb hcon.symm),
      getD_set_self _ _ _ (by simp; omega)]
  · rw [getD_set_ne _ _ _ _ (by omega : (3 : Nat) ≠ blue),
      getD_set_self _ _ _ (by simp; omega)]
  · rw [getD_set_self _ _ _ (by simp; omega)]

/-- C3 counterexample: at the claim's own instance (PixelFormat with
bits_per_pixel 32 and shifts 16/8/0, captured pixel [10,20,30,40], w = h = 1)
the transcoded alpha byte (offset 3) is 255, not zero; and for a negotiated
16-bpp PixelFormat the emitted payload still has 4 bytes per pixel, not
bits_per_pixel/8 = 2, because the transcoder chunks by the captured screen
layout and ignores the negotiated bits_per_pixel. -/
theorem claim_C3_cx :
    transcodePixels (16 / 8) (8 / 8) (0 / 8) 32 [10, 20, 30, 40] = [10, 20, 30, 255] ∧
    (transcodePixels (16 / 8) (8 / 8) (0 / 8) 32 [10, 20, 30, 40]).getD 3 0 = 255 ∧
    ((255 : Nat) ≠ 0) ∧
    (rectangleFramebufferUpdate (fun _ i => i) [] 0 0 0 1 1
        ⟨16, 16, 0, 1, 31, 63, 31, 11, 5, 0⟩ [10, 20, 30, 40]).1.frame_buffer.map
      (fun r => r.encoded_pixels.length) = [4] ∧
    ((4 : Nat) ≠ 16 / 8 * (1 * 1)) := by
  refine ⟨by decide, by decide, by decide, by decide, by decide⟩

/-- C3 corrected: the transcoder rewrites the captured buffer in place in
4-byte chunks (the depth-24 screen layout; the negotiated bits_per_pixel is
ignored), so the output always has 4·w·h bytes; within each pixel, byte
red_shift/8 receives the source R byte, green_shift/8 the G byte,
blue_shift/8 the B byte, and byte 3 is set to 255 (not zero). Stated for
byte-aligned, pairwise distinct shifts below 24, matching the true-color
layouts the server negotiates. -/
theorem claim_C3 (w h : Nat) (pixels : List Nat) (pf : PixelFormat)
    (hlen : pixels.length = 4 * (w * h))
    (hr : pf.red_shift < 24) (hg : pf.green_shift < 24) (hb : pf.blue_shift < 24)
    (hrg : pf.red_shift / 8 ≠ pf.green_shift / 8)
    (hrb : pf.red_shift / 8 ≠ pf.blue_shift / 8)
    (hgb : pf.green_shift / 8 ≠ pf.blue_shift / 8) :
    (transcodePixels (pf.red_shift / 8) (pf.green_shift / 8) (pf.blue_shift / 8) 32
      pixels).length = 4 * (w * h) ∧
    ∀ i, i < w * h →
      (transcodePixels (pf.red_shift / 8) (pf.green_shift / 8) (pf.blue_shift / 8) 32
          pixels).getD (4 * i + pf.red_shift / 8) 0 = pixels.getD (4 * i + 2) 0 ∧
      (transcodePixels (pf.red_shift / 8) (pf.green_shift / 8) (pf.blue_shift / 8) 32
          pixels).getD (4 * i + pf.green_shift / 8) 0 = pixels.getD (4 * i + 1) 0 ∧
      (transcodePixels (pf.red_shift / 8) (pf.green_shift / 8) (pf.blue_shift / 8) 32
          pixels).getD (4 * i + pf.blue_shift / 8) 0 = pixels.getD (4 * i) 0 ∧
      (transcodePixels (pf.red_shift / 8) (pf.green_shift / 8) (pf.blue_shift / 8) 32
          pixels).getD (4 * i + 3) 0 = 255 := by
  have hr3 : pf.red_shift / 8 < 3 := by omega
  have hg3 : pf.green_shift / 8 < 3 := by omega
  have hb3 : pf.blue_shift / 8 < 3 := by omega
  have hdvd : (4 : Nat) ∣ pixels.length := ⟨w * h, hlen⟩
  obtain ⟨hunif, hflat, hcount⟩ := chunksOf_spec 4 (by omega) pixels hdvd
  have hcnt : (chunksOf 4 pixels).length = w * h := by
    rw [hcount, hlen, Nat.mul_div_cancel_left _ (by omega : (0 : Nat) < 4)]
  have htp : transcodePixels (pf.red_shift / 8) (pf.green_shift / 8) (pf.blue_shift / 8) 32
      pixels = ((chunksOf 4 pixels).map
        (transcodeChunk (pf.red_shift / 8) (pf.green_shift / 8) (pf.blue_shift / 8))).flatten := by
    rfl
  have hmapu : ∀ x ∈ (chunksOf 4 pixels).map
      (transcodeChunk (pf.red_shift / 8) (pf.green_shift / 8) (pf.blue_shift / 8)),
      x.length = 4 := by
    intro x hx
    obtain ⟨ch, hch, hxe⟩ := List.mem_map.mp hx
    rw [← hxe, transcodeChunk_length]
    exact hunif ch hch
  have hmaplen : ((chunksOf 4 pixels).map
      (transcodeChunk (pf.red_shift / 8) (pf.green_shift / 8) (pf.blue_shift / 8))).length
      = w * h := by
    rw [List.length_map, hcnt]
  constructor
  · rw [htp, flatten_length_uniform 4 _ hmapu, hmaplen]
  · intro i hi
    have hic : i < (chunksOf 4 pixels).length := by omega
    have him : i < ((chunksOf 4 pixels).map
        (transcodeChunk (pf.red_shift / 8) (pf.green_shift / 8) (pf.blue_shift / 8))).length := by
      omega
    have hchlen : ((chunksOf 4 pixels).getD i []).length = 4 := by
      apply hunif
      rw [List.getD_eq_getElem _ _ hic]
      exact List.getElem_mem _
    have hsrc : ∀ j, j < 4 → pixels.getD (4 * i + j) 0 = ((chunksOf 4 pixels).getD i []).getD j 0 := by
      intro j hj
      conv =>
        lhs
        rw [← hflat]
      exact flatten_getD_uniform 4 (chunksOf 4 pixels) i j hunif hic hj
    have hout : ∀ j, j < 4 →
        (transcodePixels (pf.red_shift / 8) (pf.green_shift / 8) (pf.blue_shift / 8) 32
          pixels).getD (4 * i + j) 0
        = (transcodeChunk (pf.red_shift / 8) (pf.green_shift / 8) (pf.blue_shift / 8)
            ((chunksOf 4 pixels).getD i [])).getD j 0 := by
      intro j hj
      rw [htp, flatten_getD_uniform 4 _ i j hmapu him hj,
        getD_map_list _ _ _ hic]
    obtain ⟨e1, e2, e3, e4⟩ := transcodeChunk_getD (pf.red_shift / 8) (pf.green_shift / 8)
      (pf.blue_shift / 8) ((chunksOf 4 pixels).getD i []) hchlen hr3 hg3 hb3 hrg hrb hgb
    refine ⟨?_, ?_, ?_, ?_⟩
    · rw [hout _ (by omega), hsrc 2 (by omega), e1]
    · rw [hout _ (by omega), hsrc 1 (by omega), e2]
    · have h0 : pixels.getD (4 * i) 0 = ((chunksOf 4 pixels).getD i []).getD 0 0 := by
        simpa using hsrc 0 (by omega)
      rw [hout _ (by omega), h0, e3]
    · rw [hout 3 (by omega), e4]

/-- Witness for C3 at a 1-by-1 capture with the standard 32-bpp shifts. -/
theorem claim_C3_witness :
    ([10, 20, 30, 40] : List Nat).length = 4 * (1 * 1) ∧
    (16 : Nat) < 24 ∧ (8 : Nat) < 24 ∧ (0 : Nat) < 24 ∧
    ((16 : Nat) / 8 ≠ 8 / 8) ∧ ((16 : Nat) / 8 ≠ 0 / 8) ∧ ((8 : Nat) / 8 ≠ 0 / 8) ∧
    ((transcodePixels (16 / 8) (8 / 8) (0 / 8) 32 [10, 20, 30, 40]).length = 4 * (1 * 1) ∧
     ∀ i, i < 1 * 1 →
       (transcodePixels (16 / 8) (8 / 8) (0 / 8) 32 [10, 20, 30, 40]).getD
           (4 * i + 16 / 8) 0 = ([10, 20, 30, 40] : List Nat).getD (4 * i + 2) 0 ∧
       (transcodePixels (16 / 8) (8 / 8) (0 / 8) 32 [10, 20, 30, 40]).getD
           (4 * i + 8 / 8) 0 = ([10, 20, 30, 40] : List Nat).getD (4 * i + 1) 0 ∧
       (transcodePixels (16 / 8) (8 / 8) (0 / 8) 32 [10, 20, 30, 40]).getD
           (4 * i + 0 / 8) 0 = ([10, 20, 30, 40] : List Nat).getD (4 * i) 0 ∧
       (transcodePixels (16 / 8) (8 / 8) (0 / 8) 32 [10, 20, 30, 40]).getD
           (4 * i + 3) 0 = 255) :=
  ⟨by decide, by decide, by decide, by decide, by decide, by decide, by decide,
    claim_C3 1 1 [10, 20, 30, 40] ⟨32, 24, 0, 1, 255, 255, 255, 16, 8, 0⟩
      (by decide) (by decide) (by decide) (by decide) (by decide) (by decide) (by decide)⟩

/-!
WebSocket bridge frame loop, from proxy_websocket of
src/protocol/src/server/websocket.rs (lines 109-290). One iteration of the
client-to-remote read branch is embedded as a pure step over the inbound byte
stream: the result is None when a read fails (the only path on which the
loop returns and the connection ends), otherwise Some of the updated loop
state, the bytes written to the remote RFB socket, and the unread remainder
of the stream.
-/

structure WsProxyState where
  finPayload : List Nat
  finOpcode : Nat
  pendingWrites : List (List Nat)
deriving Repr, DecidableEq

/-- Big-endian byte-list value (u16::from_be_bytes / u64::from_be_bytes). -/
def beBytesToNat (bs : List Nat) : Nat :=
  bs.foldl (fun acc b => 256 * acc + b) 0

/-- ASCII bytes of the fixed close reason of the unmasked-frame branch. -/
def wsReasonNotMasked : List Nat :=
  [80, 97, 121, 108, 111, 97, 100, 32, 105, 115, 32, 110, 111, 116, 32, 77, 97, 115, 107,
   101, 100]

/-- The CloseFrame(1008) queued when a client frame arrives unmasked. -/
def wsCloseFrame1008 : List Nat :=
  createFrame (be16 1008 ++ wsReasonNotMasked) 8 false []

/-- The PONG reply frame for a client PING. -/
def wsPongFrame : List Nat :=
  createFrame [80, 111, 110, 103] 10 false []

/-- ASCII bytes of the close reason after a successful remote shutdown. -/
def wsReasonRemoteClosed : List Nat :=
  [82, 101, 109, 111, 116, 101, 32, 67, 111, 110, 110, 101, 99, 116, 105, 111, 110, 32,
   67, 108, 111, 115, 101, 100]

/-- The CloseFrame(1000) queued for a client CONNECTION_CLOSE when the remote
shutdown succeeds. -/
def wsCloseFrame1000 : List Nat :=
  createFrame (be16 1000 ++ wsReasonRemoteClosed) 8 false []

/-- One iteration of the proxy_websocket client-read branch. -/
def proxyStep (st : WsProxyState) (stream : List Nat) :
    Option (WsProxyState × List Nat × List Nat) :=
  match stream with
  | b0 :: b1 :: rest0 =>
      let finFlag := (getBitsLe 8 b0).getD 0 false
      let opcode0 := fromBits 8 ((getBitsLe 8 b0).drop 4) true
      let maskHint := (getBitsLe 8 b1).getD 0 false
      let payloadHint := fromBits 8 ((getBitsLe 8 b1).drop 1) true
      let lenRead : Option (Nat × List Nat) :=
        if payloadHint < 126 then some (payloadHint, rest0)
        else if payloadHint = 126 then
          if 2 ≤ rest0.length then some (beBytesToNat (rest0.take 2), rest0.drop 2) else none
        else
          if 8 ≤ rest0.length then some (beBytesToNat (rest0.take 8), rest0.drop 8) else none
      match lenRead with
      | none => none
      | some (payloadLength, rest1) =>
          let keyed : Option (Option (List Nat) × WsProxyState × List Nat) :=
            if maskHint then
              if 4 ≤ rest1.length then some (some (rest1.take 4), st, rest1.drop 4) else none
            else
              some (none,
                { st with pendingWrites := st.pendingWrites ++ [wsCloseFrame1008] }, rest1)
          match keyed with
          | none => none
          | some (maskKey, st1, rest2) =>
              if payloadLength ≤ rest2.length then
                let payload0 := rest2.take payloadLength
                let rest3 := rest2.drop payloadLength
                let payload1 := match maskKey with
                  | some k => unmaskPayload k payload0
                  | none => payload0
                if finFlag = false then
                  some ({ st1 with
                    finOpcode := if opcode0 ≠ 0 then opcode0 else st1.finOpcode
                    finPayload := st1.finPayload ++ payload1 }, [], rest3)
                else
                  let payload2 := if opcode0 = 0 then st1.finPayload ++ payload1 else payload1
                  let opcode1 := if opcode0 = 0 then st1.finOpcode else opcode0
                  let st2 := if opcode0 = 0 then { st1 with finPayload := [] } else st1
                  if opcode1 = 1 ∨ opcode1 = 2 then some (st2, payload2, rest3)
                  else if opcode1 = 9 then
                    some ({ st2 with pendingWrites := st2.pendingWrites ++ [wsPongFrame] },
                      [], rest3)
                  else if opcode1 = 8 then
                    some ({ st2 with pendingWrites := st2.pendingWrites ++ [wsCloseFrame1000] },
                      [], rest3)
                  else some (st2, [], rest3)
              else none
  | _ => none

/-- C4 (code bug): an unmasked client binary frame (bytes 0x82 0x01 0xAB,
MASK = 0) only queues CloseFrame(1008) into pending_writes; the step result
is Some, meaning the loop keeps the connection and keeps reading frames, and
the unmasked 1-byte payload 0xAB is forwarded to the RFB socket — while the
claim requires a disconnect and no forwarding. -/
theorem claim_C4 :
    proxyStep ⟨[], 0, []⟩ [130, 1, 171] =
      some (⟨[], 0, [wsCloseFrame1008]⟩, [171], []) ∧
    wsCloseFrame1008 =
      [136, 23, 3, 240, 80, 97, 121, 108, 111, 97, 100, 32, 105, 115, 32, 110, 111, 116,
       32, 77, 97, 115, 107, 101, 100] ∧
    ([171] : List Nat) ≠ [] ∧
    (proxyStep ⟨[], 0, []⟩ [130, 1, 171]).isSome = true := by
  refine ⟨by decide, by decide, by decide, by decide⟩

/-!
Analysis of the hextile solid-tile detection. The three state variables of
encode are declared before the tile loop and never reset per tile, so the
solid flag is latched: once any scan-line segment differs from the first
segment ever read, every later tile is emitted raw.
-/

/-- The initial encoder state of encode (empty previous color, empty previous
scan line, solid flag set). -/
def hexInit : HexState := ⟨[], [], true⟩

/-- The first scan-line segment the encoder reads (first segment of tile 0),
the one previous_scan_line latches onto. -/
def firstSeg (fb : FrameBuffer) : List Nat :=
  (hextileSegs fb 0).headD []

/-- The bytes_per_pixel-byte color the encoder extracts from a solid run: the
first pixel of the first segment. -/
def firstColor (fb : FrameBuffer) : List Nat :=
  (List.range (fb.bits_per_pixel / 8)).map (fun i => (firstSeg fb).getD i 0)

/-- Whether every segment of tile 0 equals the first segment. -/
def tile0EqB (fb : FrameBuffer) : Bool :=
  (hextileSegs fb 0).all (fun s => s == firstSeg fb)

/-- Whether every segment of tiles 0 .. k-1 equals the first segment. -/
def allEqUpToB (fb : FrameBuffer) (k : Nat) : Bool :=
  (List.range k).all (fun j => (hextileSegs fb j).all (fun s => s == firstSeg fb))

/-- The encoder state after the first k tiles: previous_scan_line is latched
on the first segment, the solid flag records whether every segment so far
matched it, and the previous solid color is the first pixel provided tile 0
was a matching run. -/
def invariantState (fb : FrameBuffer) (k : Nat) : HexState :=
  ⟨ if k = 0 then [] else if tile0EqB fb then firstColor fb else [],
    if k = 0 then [] else firstSeg fb,
    allEqUpToB fb k ⟩

/-- Reference output of tile k: while every segment up to and including tile
k matches the first segment, tile 0 emits 2 plus the color and later tiles
emit 0; after any mismatch the tile is emitted raw. -/
def hexTileRef (fb : FrameBuffer) (k : Nat) : List Nat :=
  if allEqUpToB fb (k + 1) then (if k = 0 then 2 :: firstColor fb else [0])
  else 1 :: (hextileSegs fb k).flatten

/-- C2 counterexample: an all-zero 17-by-1 8-bpp framebuffer has two tiles;
tile 1 is byte-identical (a single zero pixel) and the previously emitted
solid color [0] equals its color, so the claim requires subencoding byte 0,
but the encoder emits 1 (raw): the solid flag was cleared because tile 1's
one-byte segment differs from the latched 16-byte first segment. -/
theorem claim_C2_cx :
    hextileTileOutputs ⟨0, 0, 17, 1, 8, 5, List.replicate 17 0, []⟩ = [[2, 0], [1, 0]] ∧
    (hextileSegs ⟨0, 0, 17, 1, 8, 5, List.replicate 17 0, []⟩ 1).flatten = [0] ∧
    ((hextileTileOutputs ⟨0, 0, 17, 1, 8, 5, List.replicate 17 0, []⟩).getD 1 []).headD 9
      = 1 ∧
    ((1 : Nat) ≠ 0) := by
  refine ⟨by decide, by decide, by decide, by decide⟩

theorem foldl_hexStepLine (segs : List (List Nat)) : ∀ st : HexState,
    st.previous_scan_line ≠ [] →
    segs.foldl hexStepLine st =
      ⟨st.solid_previous_tile, st.previous_scan_line,
        st.solid_tile && segs.all (fun s => s == st.previous_scan_line)⟩ := by
  induction segs with
  | nil =>
      intro st _
      simp only [List.foldl_nil, List.all_nil, Bool.and_true]
  | cons s t ih =>
      intro st h
      have hlen : ¬(st.previous_scan_line.length = 0) := by
        simpa [List.length_eq_zero] using h
      simp only [List.foldl_cons, List.all_cons]
      by_cases hs : s = st.previous_scan_line
      · have hstep : hexStepLine st s = st := by
          unfold hexStepLine
          rw [if_neg hlen, if_neg (not_not_intro hs)]
        rw [hstep, ih st h]
        have hbeq : (s == st.previous_scan_line) = true := by
          simp [hs]
        rw [hbeq, Bool.true_and]
      · have hstep : hexStepLine st s = { st with solid_tile := false } := by
          unfold hexStepLine
          rw [if_neg hlen, if_pos hs]
        rw [hstep, ih ⟨st.solid_previous_tile, st.previous_scan_line, false⟩ h]
        have hbeq : (s == st.previous_scan_line) = false := by
          simpa using hs
        simp [hbeq]

theorem foldl_hexStepLine_init (s0 : List Nat) (t : List (List Nat)) (hs0 : s0 ≠ []) :
    (s0 :: t).foldl hexStepLine hexInit =
      ⟨[], s0, t.all (fun s => s == s0)⟩ := by
  have hstep : hexStepLine hexInit s0 = ⟨[], s0, true⟩ := by
    simp [hexStepLine, hexInit]
  simp only [List.foldl_cons, hstep]
  rw [foldl_hexStepLine t ⟨[], s0, true⟩ hs0]
  simp

theorem allEqUpToB_succ (fb : FrameBuffer) (k : Nat) :
    allEqUpToB fb (k + 1)
      = (allEqUpToB fb k && (hextileSegs fb k).all (fun s => s == firstSeg fb)) := by
  unfold allEqUpToB
  rw [List.range_succ, List.all_append]
  simp

theorem allEqUpToB_zero (fb : FrameBuffer) : allEqUpToB fb 0 = true := rfl

theorem allEqUpToB_one (fb : FrameBuffer) : allEqUpToB fb 1 = tile0EqB fb := by
  rw [allEqUpToB_succ, allEqUpToB_zero, Bool.true_and]
  rfl

theorem tile0EqB_of_allEq (fb : FrameBuffer) (k : Nat) (hk : 0 < k)
    (h : allEqUpToB fb k = true) : tile0EqB fb = true := by
  unfold allEqUpToB at h
  rw [List.all_eq_true] at h
  exact h 0 (List.mem_range.mpr hk)

theorem segsFlattenGetD (segs : List (List Nat)) (p : List Nat) (hne : segs ≠ [])
    (hall : segs.all (fun s => s == p) = true) (i : Nat) (hi : i < p.length) :
    segs.flatten.getD i 0 = p.getD i 0 := by
  cases segs with
  | nil => exact absurd rfl hne
  | cons s t =>
      have hs : s = p := by
        simp only [List.all_cons, Bool.and_eq_true, beq_iff_eq] at hall
        exact hall.1
      subst hs
      simp only [List.flatten_cons]
      rw [List.getD_append _ _ _ _ hi]

theorem firstColor_length (fb : FrameBuffer) :
    (firstColor fb).length = fb.bits_per_pixel / 8 := by
  simp [firstColor]

theorem solidColor_eq_firstColor (fb : FrameBuffer) (k : Nat)
    (hbl : fb.bits_per_pixel / 8 ≤ (firstSeg fb).length)
    (hne : hextileSegs fb k ≠ [])
    (hall : (hextileSegs fb k).all (fun s => s == firstSeg fb) = true) :
    (List.range (fb.bits_per_pixel / 8)).map
      (fun i => (hextileSegs fb k).flatten.getD i 0) = firstColor fb := by
  unfold firstColor
  apply List.map_congr_left
  intro i hi
  have hilt : i < (firstSeg fb).length := by
    have := List.mem_range.mp hi
    omega
  exact segsFlattenGetD _ _ hne hall i hilt

theorem firstSeg_ne_nil (fb : FrameBuffer) (hbpp : 0 < fb.bits_per_pixel / 8)
    (hbl : fb.bits_per_pixel / 8 ≤ (firstSeg fb).length) : firstSeg fb ≠ [] := by
  intro hcon
  rw [hcon] at hbl
  simp at hbl
  omega

theorem invariantState_zero (fb : FrameBuffer) : invariantState fb 0 = hexInit := rfl

theorem hexProcessTile_invariant (fb : FrameBuffer)
    (hbpp : 0 < fb.bits_per_pixel / 8)
    (hbl : fb.bits_per_pixel / 8 ≤ (firstSeg fb).length)
    (k : Nat) (hsk : hextileSegs fb k ≠ []) :
    hexProcessTile (fb.bits_per_pixel / 8) (invariantState fb k) (hextileSegs fb k)
      = (invariantState fb (k + 1), hexTileRef fb k) := by
  have hfs : firstSeg fb ≠ [] := firstSeg_ne_nil fb hbpp hbl
  have hfc : (firstColor fb).length = fb.bits_per_pixel / 8 := firstColor_length fb
  by_cases hk : k = 0
  · subst hk
    obtain ⟨s0, t, hseg⟩ : ∃ s0 t, hextileSegs fb 0 = s0 :: t := by
      cases h : hextileSegs fb 0 with
      | nil => exact absurd h hsk
      | cons a b => exact ⟨a, b, rfl⟩
    have hs0 : s0 = firstSeg fb := by
      unfold firstSeg
      rw [hseg]
      rfl
    have hallEq : (hextileSegs fb 0).all (fun s => s == firstSeg fb)
        = t.all (fun s => s == s0) := by
      rw [hseg, List.all_cons, ← hs0]
      simp
    unfold hexProcessTile
    rw [invariantState_zero, hseg, foldl_hexStepLine_init s0 t (hs0 ▸ hfs)]
    by_cases hall : t.all (fun s => s == s0) = true
    · have hall0 : (hextileSegs fb 0).all (fun s => s == firstSeg fb) = true := by
        rw [hallEq]; exact hall
      have ht0 : tile0EqB fb = true := hall0
      have hcolor : (List.range (fb.bits_per_pixel / 8)).map
          (fun i => (s0 :: t).flatten.getD i 0) = firstColor fb := by
        rw [← hseg]
        exact solidColor_eq_firstColor fb 0 hbl hsk hall0
      simp only [hall, if_true]
      rw [hcolor]
      have hne2 : ¬(firstColor fb = ([] : List Nat)) := by
        intro hcon
        rw [hcon] at hfc
        simp at hfc
        omega
      rw [if_neg hne2]
      unfold invariantState hexTileRef
      rw [allEqUpToB_one]
      simp [ht0, hs0]
    · have hallf : t.all (fun s => s == s0) = false := by
        revert hall
        cases t.all (fun s => s == s0) <;> simp
      have hall0 : (hextileSegs fb 0).all (fun s => s == firstSeg fb) = false := by
        rw [hallEq]; exact hallf
      have ht0 : tile0EqB fb = false := hall0
      simp only [hallf]
      rw [if_neg (by simp)]
      unfold invariantState hexTileRef
      rw [allEqUpToB_one]
      simp [ht0, hs0, hseg]
  · have hinv : invariantState fb k =
        ⟨if tile0EqB fb then firstColor fb else [], firstSeg fb, allEqUpToB fb k⟩ := by
      unfold invariantState
      rw [if_neg hk, if_neg hk]
    have hsucc : (allEqUpToB fb k && (hextileSegs fb k).all (fun s => s == firstSeg fb))
        = allEqUpToB fb (k + 1) := (allEqUpToB_succ fb k).symm
    unfold hexProcessTile
    rw [hinv, foldl_hexStepLine _ _ hfs]
    simp only [hsucc]
    by_cases hsol : allEqUpToB fb (k + 1) = true
    · have hks : allEqUpToB fb k = true ∧
          (hextileSegs fb k).all (fun s => s == firstSeg fb) = true := by
        rw [allEqUpToB_succ] at hsol
        exact Bool.and_eq_true_iff.mp hsol
      have ht0 : tile0EqB fb = true := tile0EqB_of_allEq fb k (Nat.pos_of_ne_zero hk) hks.1
      have hcolor : (List.range (fb.bits_per_pixel / 8)).map
          (fun i => (hextileSegs fb k).flatten.getD i 0) = firstColor fb :=
        solidColor_eq_firstColor fb k hbl hsk hks.2
      simp only [hsol, if_true]
      rw [hcolor]
      simp only [ht0, if_true]
      unfold invariantState hexTileRef
      rw [if_neg (by omega : ¬(k + 1 = 0)), if_neg (by omega : ¬(k + 1 = 0))]
      simp [ht0, hsol, hk]
    · have hsolf : allEqUpToB fb (k + 1) = false := by
        revert hsol
        cases allEqUpToB fb (k + 1) <;> simp
      simp only [hsolf]
      rw [if_neg (by simp)]
      unfold invariantState hexTileRef
      rw [if_neg (by omega : ¬(k + 1 = 0)), if_neg (by omega : ¬(k + 1 = 0))]
      simp [hsolf]

theorem getD_append_singleton {α : Type} (o1 : List α) (x : α) (d : α) :
    (o1 ++ [x]).getD o1.length d = x := by
  simp [List.getD, List.getElem?_append_right (Nat.le_refl _)]

theorem hexFold_append (fb : FrameBuffer) (l1 l2 : List Nat) : ∀ st : HexState,
    hexFold fb (l1 ++ l2) st =
      ((hexFold fb l2 (hexFold fb l1 st).1).1,
       (hexFold fb l1 st).2 ++ (hexFold fb l2 (hexFold fb l1 st).1).2) := by
  induction l1 with
  | nil => intro st; simp [hexFold]
  | cons c rest ih =>
      intro st
      simp only [List.cons_append, hexFold, List.append_eq]
      rw [ih]

theorem hexFold_output_length (fb : FrameBuffer) (l : List Nat) : ∀ st : HexState,
    (hexFold fb l st).2.length = l.length := by
  induction l with
  | nil => intro st; rfl
  | cons c rest ih =>
      intro st
      simp only [hexFold, List.length_cons]
      rw [ih]

theorem hexInvariant (fb : FrameBuffer)
    (hbpp : 0 < fb.bits_per_pixel / 8)
    (hbl : fb.bits_per_pixel / 8 ≤ (firstSeg fb).length) :
    ∀ k, (∀ j, j < k → hextileSegs fb j ≠ []) →
    (hexFold fb (List.range k) hexInit).1 = invariantState fb k := by
  intro k
  induction k with
  | zero => intro _; rfl
  | succ n ih =>
      intro hne
      rw [List.range_succ, hexFold_append]
      rw [ih (fun j hj => hne j (by omega))]
      simp only [hexFold]
      rw [hexProcessTile_invariant fb hbpp hbl n (hne n (by omega))]

/-- C2 corrected: the solid flag of the hextile encoder is latched across
tiles, so tile t is emitted as a solid tile iff every scan-line segment of
tiles 0..t equals the very first segment; in that case tile 0 emits 2
followed by the bytes_per_pixel color bytes and every later tile emits 0,
and after any deviating segment the tile is emitted raw (1 plus its bytes)
even when its own pixels are byte-identical. -/
theorem claim_C2 (fb : FrameBuffer) (t : Nat)
    (hbpp : 0 < fb.bits_per_pixel / 8)
    (hbl : fb.bits_per_pixel / 8 ≤ (firstSeg fb).length)
    (ht : t < ((fb.height + 15) / 16) * ((fb.width + 15) / 16))
    (hne : ∀ j, j ≤ t → hextileSegs fb j ≠ []) :
    (allEqUpToB fb (t + 1) = true →
      (hextileTileOutputs fb).getD t [] = if t = 0 then 2 :: firstColor fb else [0]) ∧
    (allEqUpToB fb (t + 1) = false →
      (hextileTileOutputs fb).getD t [] = 1 :: (hextileSegs fb t).flatten) := by
  have houtputs : hextileTileOutputs fb =
      (hexFold fb (List.range (((fb.height + 15) / 16) * ((fb.width + 15) / 16)))
        hexInit).2 := rfl
  have hsplit : List.range (((fb.height + 15) / 16) * ((fb.width + 15) / 16))
      = List.range (t + 1)
        ++ (List.range ((((fb.height + 15) / 16) * ((fb.width + 15) / 16)) - (t + 1))).map
          (fun i => (t + 1) + i) := by
    rw [← List.range_add]
    congr 1
    omega
  have hmain : (hextileTileOutputs fb).getD t [] = hexTileRef fb t := by
    rw [houtputs, hsplit, hexFold_append]
    have hlen1 : (hexFold fb (List.range (t + 1)) hexInit).2.length = t + 1 := by
      rw [hexFold_output_length]
      simp
    rw [List.getD_append _ _ _ _ (by omega)]
    rw [List.range_succ, hexFold_append]
    rw [hexInvariant fb hbpp hbl t (fun j hj => hne j (by omega))]
    have hlen2 : (hexFold fb (List.range t) hexInit).2.length = t := by
      rw [hexFold_output_length]
      simp
    have hsingle : (hexFold fb [t] (invariantState fb t)).2 = [hexTileRef fb t] := by
      simp only [hexFold]
      rw [hexProcessTile_invariant fb hbpp hbl t (hne t (by omega))]
    rw [hsingle]
    have hfin := getD_append_singleton (hexFold fb (List.range t) hexInit).2
      (hexTileRef fb t) []
    rw [hlen2] at hfin
    exact hfin
  constructor
  · intro hsol
    rw [hmain]
    unfold hexTileRef
    rw [if_pos hsol]
  · intro hsol
    rw [hmain]
    unfold hexTileRef
    rw [if_neg (by simp [hsol])]

/-- Witness for C2 at the 17-by-1 all-zero framebuffer and tile 1. -/
theorem claim_C2_witness :
    0 < (8 : Nat) / 8 ∧
    (8 : Nat) / 8 ≤ (firstSeg ⟨0, 0, 17, 1, 8, 5, List.replicate 17 0, []⟩).length ∧
    1 < (((1 : Nat) + 15) / 16) * (((17 : Nat) + 15) / 16) ∧
    (∀ j, j ≤ 1 → hextileSegs ⟨0, 0, 17, 1, 8, 5, List.replicate 17 0, []⟩ j ≠ []) ∧
    ((allEqUpToB ⟨0, 0, 17, 1, 8, 5, List.replicate 17 0, []⟩ (1 + 1) = true →
        (hextileTileOutputs ⟨0, 0, 17, 1, 8, 5, List.replicate 17 0, []⟩).getD 1 [] =
          if (1 : Nat) = 0 then 2 :: firstColor ⟨0, 0, 17, 1, 8, 5, List.replicate 17 0, []⟩
          else [0]) ∧
     (allEqUpToB ⟨0, 0, 17, 1, 8, 5, List.replicate 17 0, []⟩ (1 + 1) = false →
        (hextileTileOutputs ⟨0, 0, 17, 1, 8, 5, List.replicate 17 0, []⟩).getD 1 [] =
          1 :: (hextileSegs ⟨0, 0, 17, 1, 8, 5, List.replicate 17 0, []⟩ 1).flatten)) :=
  ⟨by decide, by decide, by decide, by decide,
    claim_C2 ⟨0, 0, 17, 1, 8, 5, List.replicate 17 0, []⟩ 1 (by decide) (by decide)
      (by decide) (by decide)⟩

theorem chunksExactGo_spec {α : Type} (k : Nat) (hk : 0 < k) :
    ∀ (fuel : Nat) (l : List α), l.length ≤ fuel → k ∣ l.length →
      (∀ ch ∈ chunksExactGo k fuel l, ch.length = k) ∧
      (chunksExactGo k fuel l).flatten = l ∧
      (chunksExactGo k fuel l).length = l.length / k := by
  intro fuel
  induction fuel with
  | zero =>
      intro l hl _
      have hnil : l = [] := List.eq_nil_of_length_eq_zero (by omega)
      subst hnil
      refine ⟨by simp [chunksExactGo], by simp [chunksExactGo], by simp [chunksExactGo]⟩
  | succ f ih =>
      intro l hl hd
      by_cases hz : l.length = 0
      · have hnil : l = [] := List.eq_nil_of_length_eq_zero hz
        subst hnil
        have hcond : ¬(k ≤ ([] : List α).length ∧ 0 < k) := by
          simp only [List.length_nil]
          omega
        refine ⟨?_, ?_, ?_⟩ <;> simp [chunksExactGo, hcond]
      · have hge : k ≤ l.length := Nat.le_of_dvd (Nat.pos_of_ne_zero hz) hd
        have hstep : chunksExactGo k (f + 1) l = l.take k :: chunksExactGo k f (l.drop k) := by
          simp only [chunksExactGo]
          rw [if_pos ⟨hge, hk⟩]
        have hdlen : (l.drop k).length = l.length - k := by simp
        have hddvd : k ∣ (l.drop k).length := by
          rw [hdlen]
          obtain ⟨m, hm⟩ := hd
          cases m with
          | zero => omega
          | succ n =>
              refine ⟨n, ?_⟩
              rw [hm, Nat.mul_succ]
              omega
        obtain ⟨ihu, ihf, ihl⟩ := ih (l.drop k) (by omega) hddvd
        have htlen : (l.take k).length = k := by
          simp [Nat.min_eq_left hge]
        refine ⟨?_, ?_, ?_⟩
        · intro ch hch
          rw [hstep] at hch
          rcases List.mem_cons.mp hch with hch | hch
          · rw [hch]; exact htlen
          · exact ihu ch hch
        · rw [hstep]
          simp only [List.flatten_cons, ihf]
          exact List.take_append_drop k l
        · rw [hstep]
          simp only [List.length_cons, ihl, hdlen]
          obtain ⟨m, hm⟩ := hd
          cases m with
          | zero => omega
          | succ n =>
              rw [hm, Nat.mul_succ]
              have h1 : k * n + k - k = k * n := by omega
              rw [h1, Nat.mul_div_cancel_left _ hk]
              have h2 : k * n + k = k * (n + 1) := by rw [Nat.mul_succ]
              rw [h2, Nat.mul_div_cancel_left _ hk]

theorem chunksExact_spec {α : Type} (k : Nat) (hk : 0 < k) (l : List α) (hd : k ∣ l.length) :
    (∀ ch ∈ chunksExact k l, ch.length = k) ∧
    (chunksExact k l).flatten = l ∧
    (chunksExact k l).length = l.length / k :=
  chunksExactGo_spec k hk l.length l (Nat.le_refl _) hd

/-!
DES, as implemented by the external des crate (RustCrypto), which realises
the FIPS 46-3 algorithm; init_securityresult_handshake of
src/protocol/src/server/mod.rs uses it to decrypt the client's 16-byte
response as two ECB blocks. Blocks are 64 MSB-first bits; tables are the
standard 1-based FIPS tables.
-/

def desIP : List Nat :=
  [58, 50, 42, 34, 26, 18, 10, 2, 60, 52, 44, 36, 28, 20, 12, 4,
   62, 54, 46, 38, 30, 22, 14, 6, 64, 56, 48, 40, 32, 24, 16, 8,
   57, 49, 41, 33, 25, 17, 9, 1, 59, 51, 43, 35, 27, 19, 11, 3,
   61, 53, 45, 37, 29, 21, 13, 5, 63, 55, 47, 39, 31, 23, 15, 7]

def desFP : List Nat :=
  [40, 8, 48, 16, 56, 24, 64, 32, 39, 7, 47, 15, 55, 23, 63, 31,
   38, 6, 46, 14, 54, 22, 62, 30, 37, 5, 45, 13, 53, 21, 61, 29,
   36, 4, 44, 12, 52, 20, 60, 28, 35, 3, 43, 11, 51, 19, 59, 27,
   34, 2, 42, 10, 50, 18, 58, 26, 33, 1, 41, 9, 49, 17, 57, 25]

def desE : List Nat :=
  [32, 1, 2, 3, 4, 5, 4, 5, 6, 7, 8, 9, 8, 9, 10, 11, 12, 13,
   12, 13, 14, 15, 16, 17, 16, 17, 18, 19, 20, 21, 20, 21, 22, 23, 24, 25,
   24, 25, 26, 27, 28, 29, 28, 29, 30, 31, 32, 1]

def desPtab : List Nat :=
  [16, 7, 20, 21, 29, 12, 28, 17, 1, 15, 23, 26, 5, 18, 31, 10,
   2, 8, 24, 14, 32, 27, 3, 9, 19, 13, 30, 6, 22, 11, 4, 25]

def desPC1 : List Nat :=
  [57, 49, 41, 33, 25, 17, 9, 1, 58, 50, 42, 34, 26, 18,
   10, 2, 59, 51, 43, 35, 27, 19, 11, 3, 60, 52, 44, 36,
   63, 55, 47, 39, 31, 23, 15, 7, 62, 54, 46, 38, 30, 22,
   14, 6, 61, 53, 45, 37, 29, 21, 13, 5, 28, 20, 12, 4]

def desPC2 : List Nat :=
  [14, 17, 11, 24, 1, 5, 3, 28, 15, 6, 21, 10,
   23, 19, 12, 4, 26, 8, 16, 7, 27, 20, 13, 2,
   41, 52, 31, 37, 47, 55, 30, 40, 51, 45, 33, 48,
   44, 49, 39, 56, 34, 53, 46, 42, 50, 36, 29, 32]

def desShifts : List Nat := [1, 1, 2, 2, 2, 2, 2, 2, 1, 2, 2, 2, 2, 2, 2, 1]

def desSBoxes : List (List Nat) :=
  [[14, 4, 13, 1, 2, 15, 11, 8, 3, 10, 6, 12, 5, 9, 0, 7,
    0, 15, 7, 4, 14, 2, 13, 1, 10, 6, 12, 11, 9, 5, 3, 8,
    4, 1, 14, 8, 13, 6, 2, 11, 15, 12, 9, 7, 3, 10, 5, 0,
    15, 12, 8, 2, 4, 9, 1, 7, 5, 11, 3, 14, 10, 0, 6, 13],
   [15, 1, 8, 14, 6, 11, 3, 4, 9, 7, 2, 13, 12, 0, 5, 10,
    3, 13, 4, 7, 15, 2, 8, 14, 12, 0, 1, 10, 6, 9, 11, 5,
    0, 14, 7, 11, 10, 4, 13, 1, 5, 8, 12, 6, 9, 3, 2, 15,
    13, 8, 10, 1, 3, 15, 4, 2, 11, 6, 7, 12, 0, 5, 14, 9],
   [10, 0, 9, 14, 6, 3, 15, 5, 1, 13, 12, 7, 11, 4, 2, 8,
    13, 7, 0, 9, 3, 4, 6, 10, 2, 8, 5, 14, 12, 11, 15, 1,
    13, 6, 4, 9, 8, 15, 3, 0, 11, 1, 2, 12, 5, 10, 14, 7,
    1, 10, 13, 0, 6, 9, 8, 7, 4, 15, 14, 3, 11, 5, 2, 12],
   [7, 13, 14, 3, 0, 6, 9, 10, 1, 2, 8, 5, 11, 12, 4, 15,
    13, 8, 11, 5, 6, 15, 0, 3, 4, 7, 2, 12, 1, 10, 14, 9,
    10, 6, 9, 0, 12, 11, 7, 13, 15, 1, 3, 14, 5, 2, 8, 4,
    3, 15, 0, 6, 10, 1, 13, 8, 9, 4, 5, 11, 12, 7, 2, 14],
   [2, 12, 4, 1, 7, 10, 11, 6, 8, 5, 3, 15, 13, 0, 14, 9,
    14, 11, 2, 12, 4, 7, 13, 1, 5, 0, 15, 10, 3, 9, 8, 6,
    4, 2, 1, 11, 10, 13, 7, 8, 15, 9, 12, 5, 6, 3, 0, 14,
    11, 8, 12, 7, 1, 14, 2, 13, 6, 15, 0, 9, 10, 4, 5, 3],
   [12, 1, 10, 15, 9, 2, 6, 8, 0, 13, 3, 4, 14, 7, 5, 11,
    10, 15, 4, 2, 7, 12, 9, 5, 6, 1, 13, 14, 0, 11, 3, 8,
    9, 14, 15, 5, 2, 8, 12, 3, 7, 0, 4, 10, 1, 13, 11, 6,
    4, 3, 2, 12, 9, 5, 15, 10, 11, 14, 1, 7, 6, 0, 8, 13],
   [4, 11, 2, 14, 15, 0, 8, 13, 3, 12, 9, 7, 5, 10, 6, 1,
    13, 0, 11, 7, 4, 9, 1, 10, 14, 3, 5, 12, 2, 15, 8, 6,
    1, 4, 11, 13, 12, 3, 7, 14, 10, 15, 6, 8, 0, 5, 9, 2,
    6, 11, 13, 8, 1, 4, 10, 7, 9, 5, 0, 15, 14, 2, 3, 12],
   [13, 2, 8, 4, 6, 15, 11, 1, 10, 9, 3, 14, 5, 0, 12, 7,
    1, 15, 13, 8, 10, 3, 7, 4, 12, 5, 6, 11, 0, 14, 9, 2,
    7, 11, 4, 1, 9, 12, 14, 2, 0, 6, 10, 13, 15, 3, 5, 8,
    2, 1, 14, 7, 4, 10, 8, 13, 15, 12, 9, 0, 3, 5, 6, 11]]

/-- Apply a 1-based DES selection table to a bit vector. -/
def applyTable (t : List Nat) (bits : List Bool) : List Bool :=
  t.map (fun i => bits.getD (i - 1) false)

/-- Left rotation of a 28-bit register. -/
def rotl (n : Nat) (l : List Bool) : List Bool :=
  l.drop n ++ l.take n

/-- The sixteen 48-bit round keys of the DES key schedule. -/
def desSubkeys (key : List Bool) : List (List Bool) :=
  let k := applyTable desPC1 key
  (desShifts.foldl
    (fun (acc : (List Bool × List Bool) × List (List Bool)) s =>
      let c := rotl s acc.1.1
      let d := rotl s acc.1.2
      ((c, d), acc.2 ++ [applyTable desPC2 (c ++ d)]))
    ((k.take 28, k.drop 28), [])).2

def boolToNat (b : Bool) : Nat := if b then 1 else 0

/-- One S-box substitution: 6 input bits select a row (outer bits) and a
column (inner four bits) of box idx; the entry is returned as 4 bits. -/
def sboxLookup (idx : Nat) (b : List Bool) : List Bool :=
  let row := 2 * boolToNat (b.getD 0 false) + boolToNat (b.getD 5 false)
  let col := 8 * boolToNat (b.getD 1 false) + 4 * boolToNat (b.getD 2 false)
    + 2 * boolToNat (b.getD 3 false) + boolToNat (b.getD 4 false)
  let v := (desSBoxes.getD idx []).getD (16 * row + col) 0
  [v.testBit 3, v.testBit 2, v.testBit 1, v.testBit 0]

def xorBits (a b : List Bool) : List Bool :=
  List.zipWith xor a b

/-- The DES cipher function f(R, K): expand, mix the round key, substitute
through the eight S-boxes, permute. -/
def desF (k r : List Bool) : List Bool :=
  let x := xorBits (applyTable desE r) k
  let chunks := chunksExact 6 x
  applyTable desPtab (((List.range 8).map (fun i => sboxLookup i (chunks.getD i []))).flatten)

/-- One Feistel round. -/
def desRound (p : List Bool × List Bool) (k : List Bool) : List Bool × List Bool :=
  (p.2, xorBits p.1 (desF k p.2))

/-- The DES data path for a given round-key sequence: initial permutation,
sixteen rounds, pre-output swap, final permutation. -/
def desApplyKs (ks : List (List Bool)) (block : List Bool) : List Bool :=
  applyTable desFP
    ((ks.foldl desRound ((applyTable desIP block).take 32,
        (applyTable desIP block).drop 32)).2
      ++ (ks.foldl desRound ((applyTable desIP block).take 32,
        (applyTable desIP block).drop 32)).1)

def desEncryptBits (key block : List Bool) : List Bool :=
  desApplyKs (desSubkeys key) block

def desDecryptBits (key block : List Bool) : List Bool :=
  desApplyKs (desSubkeys key).reverse block

def byteToBits (b : Nat) : List Bool :=
  [b.testBit 7, b.testBit 6, b.testBit 5, b.testBit 4,
   b.testBit 3, b.testBit 2, b.testBit 1, b.testBit 0]

def bytesToBits (bs : List Nat) : List Bool :=
  (bs.map byteToBits).flatten

def bitsToByte (l : List Bool) : Nat :=
  l.foldl (fun acc b => 2 * acc + boolToNat b) 0

def bitsToBytes (l : List Bool) : List Nat :=
  (chunksExact 8 l).map bitsToByte

def desEncryptBlock (key block : List Nat) : List Nat :=
  bitsToBytes (desEncryptBits (bytesToBits key) (bytesToBits block))

def desDecryptBlock (key block : List Nat) : List Nat :=
  bitsToBytes (desDecryptBits (bytesToBits key) (bytesToBits block))

/-!
VNC authentication of init_securityresult_handshake (type 2 branch,
src/protocol/src/server/mod.rs lines 704-755).
-/

/-- The per-byte bit reversal applied to the configured key:
u8::from_bits(byte.get_bits_le(), false). -/
def bitrevByte (b : Nat) : Nat :=
  fromBits 8 (getBitsLe 8 b) false

/-- vnckey_le: every key byte bit-reversed. -/
def vncKeyLe (key : List Nat) : List Nat :=
  key.map bitrevByte

/-- Whether the server accepts: the client's 16-byte response is decrypted as
two 8-byte DES ECB blocks with the bit-reversed key and compared with the
challenge bytes. -/
def vncAccepts (key challenge response : List Nat) : Bool :=
  (desDecryptBlock (vncKeyLe key) (response.take 8)
    ++ desDecryptBlock (vncKeyLe key) (response.drop 8)) == challenge

/-- ASCII bytes of the failure reason of the type 2 branch. -/
def vncFailReason : List Nat :=
  [80, 97, 115, 115, 119, 111, 114, 100, 32, 105, 115, 32, 73, 110, 99, 111, 114, 114,
   101, 99, 116]

/-- The SecurityResult bytes the server writes after checking the response:
u32 0 on success, else u32 1 followed by the u32 reason length and the
reason string. -/
def securityResultBytes (key challenge response : List Nat) : List Nat :=
  if vncAccepts key challenge response then [0, 0, 0, 0]
  else [0, 0, 0, 1] ++ [0, 0, 0, 21] ++ vncFailReason

theorem xorBits_cancel : ∀ (a b : List Bool), a.length ≤ b.length →
    xorBits (xorBits a b) b = a := by
  intro a
  induction a with
  | nil => intro b _; rfl
  | cons x xs ih =>
      intro b hb
      cases b with
      | nil => simp at hb
      | cons y ys =>
          simp only [xorBits, List.zipWith_cons_cons]
          have hx : xor (xor x y) y = x := by
            cases x <;> cases y <;> rfl
          rw [hx]
          have := ih ys (by simpa using hb)
          simp only [xorBits] at this
          rw [this]

theorem applyTable_length (t : List Nat) (x : List Bool) :
    (applyTable t x).length = t.length := by
  simp [applyTable]

theorem desF_length (k r : List Bool) : (desF k r).length = 32 := by
  rw [desF, applyTable_length]
  rfl

theorem desRound_foldl_lengths : ∀ (ks : List (List Bool)) (L R : List Bool),
    L.length = 32 → R.length = 32 →
    (ks.foldl desRound (L, R)).1.length = 32 ∧ (ks.foldl desRound (L, R)).2.length = 32 := by
  intro ks
  induction ks with
  | nil => intro L R hL hR; exact ⟨hL, hR⟩
  | cons k t ih =>
      intro L R hL hR
      simp only [List.foldl_cons, desRound]
      apply ih
      · exact hR
      · rw [xorBits, List.length_zipWith, desF_length, hL]
        omega

theorem desRoundsInv : ∀ (ks : List (List Bool)) (L R : List Bool),
    L.length = 32 → R.length = 32 →
    ks.reverse.foldl desRound ((ks.foldl desRound (L, R)).2, (ks.foldl desRound (L, R)).1)
      = (R, L) := by
  intro ks
  induction ks with
  | nil => intro L R _ _; rfl
  | cons k t ih =>
      intro L R hL hR
      have hX : (xorBits L (desF k R)).length = 32 := by
        rw [xorBits, List.length_zipWith, desF_length, hL]
        rfl
      simp only [List.reverse_cons, List.foldl_cons, List.foldl_append, desRound]
      have hstep := ih R (xorBits L (desF k R)) hR hX
      simp only [desRound] at hstep
      rw [hstep]
      simp only [desRound]
      rw [xorBits_cancel L (desF k R) (by rw [desF_length, hL])]
      rfl

theorem applyTable_applyTable (t s : List Nat) (x : List Bool)
    (h : ∀ i ∈ t, 1 ≤ i ∧ i ≤ s.length) :
    applyTable t (applyTable s x) = applyTable (t.map (fun i => s.getD (i - 1) 0)) x := by
  unfold applyTable
  rw [List.map_map]
  apply List.map_congr_left
  intro i hi
  obtain ⟨h1, h2⟩ := h i hi
  have hlt : i - 1 < s.length := by omega
  simp only [Function.comp]
  rw [List.getD_eq_getElem _ _ (by simpa using hlt), List.getD_eq_getElem _ _ hlt]
  simp

theorem applyTable_range (n : Nat) (x : List Bool) (hx : x.length = n) :
    applyTable (List.range' 1 n) x = x := by
  unfold applyTable
  apply List.ext_getElem
  · simp [hx]
  · intro j h1 h2
    simp only [List.getElem_map, List.getElem_range']
    have hj : j < x.length := h2
    have he : 1 + 1 * j - 1 = j := by omega
    rw [he, List.getD_eq_getElem _ _ hj]

theorem desIP_comp_desFP : desIP.map (fun i => desFP.getD (i - 1) 0) = List.range' 1 64 := by
  decide

theorem desFP_comp_desIP : desFP.map (fun i => desIP.getD (i - 1) 0) = List.range' 1 64 := by
  decide

theorem desIP_mem : ∀ i ∈ desIP, 1 ≤ i ∧ i ≤ 64 := by decide

theorem desFP_mem : ∀ i ∈ desFP, 1 ≤ i ∧ i ≤ 64 := by decide

theorem desApplyKs_inverse (ks : List (List Bool)) (b : List Bool) (hb : b.length = 64) :
    desApplyKs ks.reverse (desApplyKs ks b) = b := by
  unfold desApplyKs
  have hiplen : (applyTable desIP b).length = 64 := by
    rw [applyTable_length]
    rfl
  have hl0 : ((applyTable desIP b).take 32).length = 32 := by
    simp [hiplen]
  have hr0 : ((applyTable desIP b).drop 32).length = 32 := by
    simp [hiplen]
  obtain ⟨hlr1, hlr2⟩ := desRound_foldl_lengths ks _ _ hl0 hr0
  have hcat : ((ks.foldl desRound ((applyTable desIP b).take 32,
      (applyTable desIP b).drop 32)).2
      ++ (ks.foldl desRound ((applyTable desIP b).take 32,
        (applyTable desIP b).drop 32)).1).length = 64 := by
    rw [List.length_append, hlr1, hlr2]
  have hinner : applyTable desIP (applyTable desFP
      ((ks.foldl desRound ((applyTable desIP b).take 32,
        (applyTable desIP b).drop 32)).2
        ++ (ks.foldl desRound ((applyTable desIP b).take 32,
          (applyTable desIP b).drop 32)).1))
      = (ks.foldl desRound ((applyTable desIP b).take 32,
          (applyTable desIP b).drop 32)).2
        ++ (ks.foldl desRound ((applyTable desIP b).take 32,
          (applyTable desIP b).drop 32)).1 := by
    rw [applyTable_applyTable _ _ _ desIP_mem, desIP_comp_desFP]
    exact applyTable_range 64 _ hcat
  rw [hinner]
  have htk := List.take_left
    (ks.foldl desRound ((applyTable desIP b).take 32, (applyTable desIP b).drop 32)).2
    (ks.foldl desRound ((applyTable desIP b).take 32, (applyTable desIP b).drop 32)).1
  rw [hlr2] at htk
  have hdk := List.drop_left
    (ks.foldl desRound ((applyTable desIP b).take 32, (applyTable desIP b).drop 32)).2
    (ks.foldl desRound ((applyTable desIP b).take 32, (applyTable desIP b).drop 32)).1
  rw [hlr2] at hdk
  rw [htk, hdk]
  rw [desRoundsInv ks _ _ hl0 hr0]
  show applyTable desFP
      ((applyTable desIP b).take 32 ++ (applyTable desIP b).drop 32) = b
  rw [List.take_append_drop]
  have hmem2 : ∀ i ∈ desFP, 1 ≤ i ∧ i ≤ desIP.length := by
    intro i hi
    have h := desFP_mem i hi
    have hlen : desIP.length = 64 := rfl
    omega
  rw [applyTable_applyTable _ _ _ hmem2, desFP_comp_desIP]
  exact applyTable_range 64 b hb

theorem byteToBits_length (b : Nat) : (byteToBits b).length = 8 := rfl

set_option maxRecDepth 4096 in
theorem bitsToByte_byteToBits : ∀ b : Nat, b < 256 → bitsToByte (byteToBits b) = b := by
  decide

theorem byteToBits_bitsToByte_eight : ∀ (a b c d e f g i : Bool),
    byteToBits (bitsToByte [a, b, c, d, e, f, g, i]) = [a, b, c, d, e, f, g, i] := by
  decide

theorem list_bool_eight (l : List Bool) (h : l.length = 8) :
    ∃ a b c d e f g i, l = [a, b, c, d, e, f, g, i] := by
  rcases l with _ | ⟨a, l⟩ <;> simp at h
  rcases l with _ | ⟨b, l⟩ <;> simp at h
  rcases l with _ | ⟨c, l⟩ <;> simp at h
  rcases l with _ | ⟨d, l⟩ <;> simp at h
  rcases l with _ | ⟨e, l⟩ <;> simp at h
  rcases l with _ | ⟨f, l⟩ <;> simp at h
  rcases l with _ | ⟨g, l⟩ <;> simp at h
  rcases l with _ | ⟨i, l⟩ <;> simp at h
  exact ⟨a, b, c, d, e, f, g, i, by rw [h]⟩

theorem byteToBits_bitsToByte (l : List Bool) (h : l.length = 8) :
    byteToBits (bitsToByte l) = l := by
  obtain ⟨a, b, c, d, e, f, g, i, hl⟩ := list_bool_eight l h
  rw [hl]
  exact byteToBits_bitsToByte_eight a b c d e f g i

theorem bytesToBits_bitsToBytes (l : List Bool) (hd : (8 : Nat) ∣ l.length) :
    bytesToBits (bitsToBytes l) = l := by
  obtain ⟨hu, hf, _⟩ := chunksExact_spec 8 (by omega) l hd
  unfold bitsToBytes bytesToBits
  rw [List.map_map]
  have hmap : (chunksExact 8 l).map (byteToBits ∘ bitsToByte) = chunksExact 8 l := by
    conv_rhs => rw [← List.map_id (chunksExact 8 l)]
    apply List.map_congr_left
    intro ch hch
    simp only [Function.comp, id]
    exact byteToBits_bitsToByte ch (hu ch hch)
  rw [hmap, hf]

theorem bitsToBytes_bytesToBits (bs : List Nat) (hb : ∀ b ∈ bs, b < 256) :
    bitsToBytes (bytesToBits bs) = bs := by
  unfold bytesToBits bitsToBytes
  rw [chunksExact_join_uniform 8 (by omega) _ (fun x hx => by
    obtain ⟨b, _, hbx⟩ := List.mem_map.mp hx
    rw [← hbx]
    rfl)]
  rw [List.map_map]
  conv_rhs => rw [← List.map_id bs]
  apply List.map_congr_left
  intro b hbm
  simp only [Function.comp, id]
  exact bitsToByte_byteToBits b (hb b hbm)

theorem bytesToBits_length (bs : List Nat) : (bytesToBits bs).length = 8 * bs.length := by
  unfold bytesToBits
  rw [flatten_length_uniform 8 _ (fun x hx => by
    obtain ⟨b, _, hbx⟩ := List.mem_map.mp hx
    rw [← hbx]
    rfl)]
  rw [List.length_map]

theorem desApplyKs_length (ks : List (List Bool)) (b : List Bool) :
    (desApplyKs ks b).length = 64 := by
  rw [desApplyKs, applyTable_length]
  rfl

theorem bitsToBytes_length64 (l : List Bool) (h : l.length = 64) :
    (bitsToBytes l).length = 8 := by
  unfold bitsToBytes
  rw [List.length_map]
  obtain ⟨_, _, hc⟩ := chunksExact_spec 8 (by omega) l (by rw [h]; exact ⟨8, rfl⟩)
  rw [hc, h]

theorem desEncryptBlock_length (k b : List Nat) : (desEncryptBlock k b).length = 8 :=
  bitsToBytes_length64 _ (desApplyKs_length _ _)

theorem desDecryptBlock_length (k b : List Nat) : (desDecryptBlock k b).length = 8 :=
  bitsToBytes_length64 _ (desApplyKs_length _ _)

theorem desBlock_decrypt_encrypt (k b : List Nat) (hb : b.length = 8)
    (hbb : ∀ x ∈ b, x < 256) : desDecryptBlock k (desEncryptBlock k b) = b := by
  unfold desEncryptBlock desDecryptBlock desEncryptBits desDecryptBits
  rw [bytesToBits_bitsToBytes _ (by rw [desApplyKs_length]; exact ⟨8, rfl⟩)]
  rw [desApplyKs_inverse _ _ (by rw [bytesToBits_length, hb])]
  exact bitsToBytes_bytesToBits b hbb

theorem desBlock_encrypt_decrypt (k b : List Nat) (hb : b.length = 8)
    (hbb : ∀ x ∈ b, x < 256) : desEncryptBlock k (desDecryptBlock k b) = b := by
  unfold desEncryptBlock desDecryptBlock desEncryptBits desDecryptBits
  rw [bytesToBits_bitsToBytes _ (by rw [desApplyKs_length]; exact ⟨8, rfl⟩)]
  have hinv := desApplyKs_inverse (desSubkeys (bytesToBits k)).reverse (bytesToBits b)
    (by rw [bytesToBits_length, hb])
  rw [List.reverse_reverse] at hinv
  rw [hinv]
  exact bitsToBytes_bytesToBits b hbb

/-- C7: with an 8-byte key, the server accepts a 16-byte response iff it is
exactly the blockwise DES ECB encryption of the challenge under the
bit-reversed key — DES decryption is a bijection on blocks, so that response
is unique — and every other response is answered with u32 1 followed by the
u32-length-prefixed failure reason, while an accepted one gets u32 0. -/
theorem claim_C7 (key c r : List Nat) (hkey : key.length = 8) (hc : c.length = 16)
    (hr : r.length = 16) (hcb : ∀ b ∈ c, b < 256) (hrb : ∀ b ∈ r, b < 256) :
    (vncAccepts key c r = true ↔
      r = desEncryptBlock (vncKeyLe key) (c.take 8)
        ++ desEncryptBlock (vncKeyLe key) (c.drop 8)) ∧
    (vncAccepts key c r = true → securityResultBytes key c r = [0, 0, 0, 0]) ∧
    (vncAccepts key c r = false →
      securityResultBytes key c r = [0, 0, 0, 1] ++ [0, 0, 0, 21] ++ vncFailReason) := by
  refine ⟨?_, ?_, ?_⟩
  · have hbeq : vncAccepts key c r = true ↔
        desDecryptBlock (vncKeyLe key) (r.take 8)
          ++ desDecryptBlock (vncKeyLe key) (r.drop 8) = c := by
      unfold vncAccepts
      exact beq_iff_eq
    rw [hbeq]
    constructor
    · intro hd
      have htlen : (r.take 8).length = 8 := by simp [hr]
      have hdlen : (r.drop 8).length = 8 := by simp [hr]
      have hctlen : (c.take 8).length = 8 := by simp [hc]
      have hd1len : (desDecryptBlock (vncKeyLe key) (r.take 8)).length = 8 :=
        desDecryptBlock_length _ _
      rw [← List.take_append_drop 8 c] at hd
      obtain ⟨h1, h2⟩ := List.append_inj hd (by rw [hd1len, hctlen])
      have e1 : desEncryptBlock (vncKeyLe key) (c.take 8) = r.take 8 := by
        rw [← h1]
        exact desBlock_encrypt_decrypt _ _ htlen
          (fun x hx => hrb x (List.take_subset _ _ hx))
      have e2 : desEncryptBlock (vncKeyLe key) (c.drop 8) = r.drop 8 := by
        rw [← h2]
        exact desBlock_encrypt_decrypt _ _ hdlen
          (fun x hx => hrb x (List.drop_subset _ _ hx))
      rw [e1, e2, List.take_append_drop]
    · intro hre
      have hctlen : (c.take 8).length = 8 := by simp [hc]
      have hcdlen : (c.drop 8).length = 8 := by simp [hc]
      have hel : (desEncryptBlock (vncKeyLe key) (c.take 8)).length = 8 :=
        desEncryptBlock_length _ _
      have htk := List.take_left (desEncryptBlock (vncKeyLe key) (c.take 8))
        (desEncryptBlock (vncKeyLe key) (c.drop 8))
      rw [hel] at htk
      have hdk := List.drop_left (desEncryptBlock (vncKeyLe key) (c.take 8))
        (desEncryptBlock (vncKeyLe key) (c.drop 8))
      rw [hel] at hdk
      have ht : r.take 8 = desEncryptBlock (vncKeyLe key) (c.take 8) := by
        rw [hre]
        exact htk
      have hdp : r.drop 8 = desEncryptBlock (vncKeyLe key) (c.drop 8) := by
        rw [hre]
        exact hdk
      rw [ht, hdp,
        desBlock_decrypt_encrypt _ _ hctlen (fun x hx => hcb x (List.take_subset _ _ hx)),
        desBlock_decrypt_encrypt _ _ hcdlen (fun x hx => hcb x (List.drop_subset _ _ hx)),
        List.take_append_drop]
  · intro h
    simp [securityResultBytes, h]
  · intro h
    simp [securityResultBytes, h]

/-- Witness for C7 at a concrete key, challenge and response. -/
theorem claim_C7_witness :
    ([1, 2, 3, 4, 5, 6, 7, 8] : List Nat).length = 8 ∧
    ([0, 1, 2, 3, 4, 5, 6, 7, 8, 9, 10, 11, 12, 13, 14, 15] : List Nat).length = 16 ∧
    ([9, 9, 9, 9, 9, 9, 9, 9, 9, 9, 9, 9, 9, 9, 9, 9] : List Nat).length = 16 ∧
    (∀ b ∈ ([0, 1, 2, 3, 4, 5, 6, 7, 8, 9, 10, 11, 12, 13, 14, 15] : List Nat), b < 256) ∧
    (∀ b ∈ ([9, 9, 9, 9, 9, 9, 9, 9, 9, 9, 9, 9, 9, 9, 9, 9] : List Nat), b < 256) ∧
    ((vncAccepts [1, 2, 3, 4, 5, 6, 7, 8]
        [0, 1, 2, 3, 4, 5, 6, 7, 8, 9, 10, 11, 12, 13, 14, 15]
        [9, 9, 9, 9, 9, 9, 9, 9, 9, 9, 9, 9, 9, 9, 9, 9] = true ↔
      [9, 9, 9, 9, 9, 9, 9, 9, 9, 9, 9, 9, 9, 9, 9, 9] =
        desEncryptBlock (vncKeyLe [1, 2, 3, 4, 5, 6, 7, 8])
          (([0, 1, 2, 3, 4, 5, 6, 7, 8, 9, 10, 11, 12, 13, 14, 15] : List Nat).take 8)
        ++ desEncryptBlock (vncKeyLe [1, 2, 3, 4, 5, 6, 7, 8])
          (([0, 1, 2, 3, 4, 5, 6, 7, 8, 9, 10, 11, 12, 13, 14, 15] : List Nat).drop 8)) ∧
    (vncAccepts [1, 2, 3, 4, 5, 6, 7, 8]
        [0, 1, 2, 3, 4, 5, 6, 7, 8, 9, 10, 11, 12, 13, 14, 15]
        [9, 9, 9, 9, 9, 9, 9, 9, 9, 9, 9, 9, 9, 9, 9, 9] = true →
      securityResultBytes [1, 2, 3, 4, 5, 6, 7, 8]
        [0, 1, 2, 3, 4, 5, 6, 7, 8, 9, 10, 11, 12, 13, 14, 15]
        [9, 9, 9, 9, 9, 9, 9, 9, 9, 9, 9, 9, 9, 9, 9, 9] = [0, 0, 0, 0]) ∧
    (vncAccepts [1, 2, 3, 4, 5, 6, 7, 8]
        [0, 1, 2, 3, 4, 5, 6, 7, 8, 9, 10, 11, 12, 13, 14, 15]
        [9, 9, 9, 9, 9, 9, 9, 9, 9, 9, 9, 9, 9, 9, 9, 9] = false →
      securityResultBytes [1, 2, 3, 4, 5, 6, 7, 8]
        [0, 1, 2, 3, 4, 5, 6, 7, 8, 9, 10, 11, 12, 13, 14, 15]
        [9, 9, 9, 9, 9, 9, 9, 9, 9, 9, 9, 9, 9, 9, 9, 9]
        = [0, 0, 0, 1] ++ [0, 0, 0, 21] ++ vncFailReason)) :=
  ⟨rfl, rfl, rfl, by decide, by decide,
    claim_C7 [1, 2, 3, 4, 5, 6, 7, 8]
      [0, 1, 2, 3, 4, 5, 6, 7, 8, 9, 10, 11, 12, 13, 14, 15]
      [9, 9, 9, 9, 9, 9, 9, 9, 9, 9, 9, 9, 9, 9, 9, 9]
      rfl rfl rfl (by decide) (by decide)⟩
